import Mathlib

/-!
Shallow embedding of the recipe backend core: the entity model of
src/backend/recipes/models.py and the recipe serializer logic of
src/backend/api/serializers.py (RecipesSerializer.validate / create /
create_ingredients / update / delete and SubscribeSerializer's derived
queries), translated into pure Lean functions over an explicit store.
-/

/-- Configuration constants drawn from the Django settings module
(only the validator bound for ingredient amounts is relevant here). -/
structure Config where
  maxAmount : Int
deriving DecidableEq

/-- Row of the Ingredients table: name plus measurement unit
(recipes/models.py, class Ingredients). -/
structure Ingredients where
  id : Nat
  name : String
  measurement_unit : String
deriving DecidableEq

/-- Row of the Tags table (recipes/models.py, class Tags). -/
structure Tags where
  id : Nat
  name : String
  color : String
  slug : String
deriving DecidableEq

/-- Row of the Recipes table (recipes/models.py, class Recipes); the
image is abstracted to its stored reference and the author to a user id. -/
structure Recipes where
  id : Nat
  name : String
  text : String
  image : String
  cooking_time : Nat
  author : Nat
deriving DecidableEq

/-- Row of the IngredientInRecipe association table
(recipes/models.py, class IngredientInRecipe). -/
structure IngredientInRecipe where
  ingredient : Nat
  recipe : Nat
  amount : Int
deriving DecidableEq

/-- Row of the implicit many-to-many table behind Recipes.tags. -/
structure RecipeTag where
  recipe : Nat
  tag : Nat
deriving DecidableEq

/-- Row of the Favorite table (recipes/models.py, class Favorite). -/
structure Favorite where
  user : Nat
  recipe : Nat
deriving DecidableEq

/-- Row of the Cart table (recipes/models.py, class Cart). -/
structure Cart where
  user : Nat
  recipe : Nat
deriving DecidableEq

/-- Modelled from the spec: the Subscription entity lives in
users/models.py, which is not under src. The spec describes it as a
(user, author) pair where user follows author; the serializer usage
(author__following__user and obj.user.follower) fixes the reverse
accessors: `following` is the reverse of the author foreign key and
`follower` the reverse of the user foreign key. -/
structure Subscribe where
  user : Nat
  author : Nat
deriving DecidableEq

/-- The persisted store: one list of rows per table. -/
structure Store where
  ingredients : List Ingredients
  tags : List Tags
  recipes : List Recipes
  recipeIngredients : List IngredientInRecipe
  recipeTags : List RecipeTag
  favorites : List Favorite
  carts : List Cart
  subscriptions : List Subscribe
deriving DecidableEq

/-- Field a ValidationError is keyed by. -/
inductive ErrField where
  | ingredients
  | tags
  | amount
deriving DecidableEq

/-- Error taxonomy of the core: Http404 from get_object_or_404,
serializers.ValidationError, and store-level uniqueness conflicts. -/
inductive Err where
  | notFound
  | validation (f : ErrField)
  | conflict
deriving DecidableEq

instance {α : Type} [DecidableEq α] : DecidableEq (Except Err α) := fun a b =>
  match a, b with
  | .ok x, .ok y => decidable_of_iff (x = y) (by simp)
  | .error x, .error y => decidable_of_iff (x = y) (by simp)
  | .ok _, .error _ => isFalse (by simp)
  | .error _, .ok _ => isFalse (by simp)

/-- Lookup mirroring get_object_or_404(Ingredients, id=...) minus the 404,
which the callers turn into Err.notFound. -/
def findIngredient (s : Store) (i : Nat) : Option Ingredients :=
  s.ingredients.find? (fun ing => ing.id == i)

/-- Lookup mirroring get_object_or_404(Tags, id=...). -/
def findTag (s : Store) (t : Nat) : Option Tags :=
  s.tags.find? (fun tg => tg.id == t)

/-- Modelled from the spec: validate_amount lives in
recipes/validators.py, which is not under src. The spec says it accepts
positive integers from 1 up to the configured maximum and rejects 0,
negative values, and values above the maximum with a ValidationError. -/
def validate_amount (cfg : Config) (v : Int) : Except Err Unit :=
  if 1 ≤ v ∧ v ≤ cfg.maxAmount then .ok () else .error (.validation .amount)

/-- One element of the request payload's ingredients list: an
ingredient id together with an amount. -/
structure IngredientEntry where
  id : Nat
  amount : Int
deriving DecidableEq

/-- Write payload of a recipe (the RecipeWrite representation). -/
structure RecipeInput where
  name : String
  text : String
  image : String
  cooking_time : Nat
  ingredients : List IngredientEntry
  tags : List Nat
deriving DecidableEq

/-- The for-loop over ingredient entries inside RecipesSerializer.validate:
fetch each entry (404 when absent), reject it when the fetched object is
already in the accumulated list, then validate its amount. -/
def ingredientsLoop (cfg : Config) (s : Store) :
    List IngredientEntry → List Ingredients → Except Err Unit
  | [], _ => .ok ()
  | item :: rest, seen =>
    match findIngredient s item.id with
    | none => .error .notFound
    | some ing =>
      if ing ∈ seen then .error (.validation .ingredients)
      else
        match validate_amount cfg item.amount with
        | .error e => .error e
        | .ok () => ingredientsLoop cfg s rest (seen ++ [ing])

/-- The for-loop over tag ids inside RecipesSerializer.validate. -/
def tagsLoop (s : Store) : List Nat → List Tags → Except Err Unit
  | [], _ => .ok ()
  | t :: rest, seen =>
    match findTag s t with
    | none => .error .notFound
    | some tg =>
      if tg ∈ seen then .error (.validation .tags)
      else tagsLoop s rest (seen ++ [tg])

/-- Ingredient half of RecipesSerializer.validate: the emptiness check
followed by the entry loop. -/
def validateIngredientsPart (cfg : Config) (s : Store) :
    List IngredientEntry → Except Err Unit
  | [] => .error (.validation .ingredients)
  | e :: rest => ingredientsLoop cfg s (e :: rest) []

/-- Tag half of RecipesSerializer.validate. -/
def validateTagsPart (s : Store) : List Nat → Except Err Unit
  | [] => .error (.validation .tags)
  | t :: rest => tagsLoop s (t :: rest) []

/-- RecipesSerializer.validate: ingredients are checked fully before tags. -/
def validate (cfg : Config) (s : Store) (inp : RecipeInput) : Except Err Unit :=
  match validateIngredientsPart cfg s inp.ingredients with
  | .error e => .error e
  | .ok () => validateTagsPart s inp.tags

/-- Insertion into the IngredientInRecipe table; the store raises a
conflict when the unique (ingredient, recipe) constraint of
IngredientInRecipe.Meta would be violated. -/
def insertIngredientInRecipe (s : Store) (row : IngredientInRecipe) :
    Except Err Store :=
  if s.recipeIngredients.any
      (fun r => r.ingredient == row.ingredient && r.recipe == row.recipe) then
    .error .conflict
  else
    .ok { s with recipeIngredients := s.recipeIngredients ++ [row] }

/-- RecipesSerializer.create_ingredients: one IngredientInRecipe row per
entry, inserted in order. -/
def create_ingredients (entries : List IngredientEntry) (rid : Nat)
    (s : Store) : Except Err Store :=
  match entries with
  | [] => .ok s
  | e :: rest =>
    match insertIngredientInRecipe s ⟨e.id, rid, e.amount⟩ with
    | .error er => .error er
    | .ok s1 => create_ingredients rest rid s1

/-- recipe.tags.set(tags): replace the recipe's tag links with the given
tag ids. -/
def setTags (s : Store) (rid : Nat) (ts : List Nat) : Store :=
  { s with recipeTags :=
      s.recipeTags.filter (fun r => r.recipe ≠ rid)
        ++ ts.map (fun t => ⟨rid, t⟩) }

/-- Primary key the store hands to a freshly inserted Recipes row. -/
def freshRecipeId (s : Store) : Nat :=
  (s.recipes.map (fun r => r.id)).foldr max 0 + 1

/-- Body of RecipesSerializer.create inside the transaction: insert the
Recipes row, set its tags, then insert the ingredient rows. -/
def createBody (s : Store) (author : Nat) (inp : RecipeInput) :
    Except Err (Store × Nat) :=
  let rid := freshRecipeId s
  let s1 : Store := { s with recipes := s.recipes ++
      [⟨rid, inp.name, inp.text, inp.image, inp.cooking_time, author⟩] }
  let s2 := setTags s1 rid inp.tags
  match create_ingredients inp.ingredients rid s2 with
  | .error e => .error e
  | .ok s3 => .ok (s3, rid)

/-- RecipesSerializer.create: validation, then the transaction.atomic
body; any error leaves the prior store untouched. -/
def create (cfg : Config) (s : Store) (author : Nat) (inp : RecipeInput) :
    Store × Except Err Nat :=
  match validate cfg s inp with
  | .error e => (s, .error e)
  | .ok () =>
    match createBody s author inp with
    | .error e => (s, .error e)
    | .ok (s3, rid) => (s3, .ok rid)

/-- recipe.ingredients.clear(): delete every IngredientInRecipe row of
the recipe. -/
def clearIngredients (s : Store) (rid : Nat) : Store :=
  { s with recipeIngredients :=
      s.recipeIngredients.filter (fun r => r.recipe ≠ rid) }

/-- ModelSerializer.update on the remaining validated fields of the
Recipes row; validate() put the requesting user into the data, so the
author field is rewritten as well. -/
def updateScalars (s : Store) (rid author : Nat) (inp : RecipeInput) :
    Store :=
  { s with recipes := s.recipes.map (fun r =>
      if r.id = rid then
        { r with name := inp.name, text := inp.text, image := inp.image,
                 cooking_time := inp.cooking_time, author := author }
      else r) }

/-- Body of RecipesSerializer.update inside the transaction: clear the
ingredient associations, reinsert from the payload, replace the tag set,
then write the scalar fields. -/
def updateBody (s : Store) (rid author : Nat) (inp : RecipeInput) :
    Except Err Store :=
  match create_ingredients inp.ingredients rid (clearIngredients s rid) with
  | .error e => .error e
  | .ok s2 => .ok (updateScalars (setTags s2 rid inp.tags) rid author inp)

/-- RecipesSerializer.update: validation, then the transaction.atomic
body; any error leaves the prior store untouched. -/
def update (cfg : Config) (s : Store) (rid author : Nat)
    (inp : RecipeInput) : Store × Except Err Unit :=
  match validate cfg s inp with
  | .error e => (s, .error e)
  | .ok () =>
    match updateBody s rid author inp with
    | .error e => (s, .error e)
    | .ok s3 => (s3, .ok ())

/-- RecipesSerializer.delete: recipe.delete() with the CASCADE rules of
recipes/models.py removing every dependent row. -/
def deleteRecipe (s : Store) (rid : Nat) : Store :=
  { s with
    recipes := s.recipes.filter (fun r => r.id ≠ rid),
    recipeIngredients := s.recipeIngredients.filter (fun r => r.recipe ≠ rid),
    recipeTags := s.recipeTags.filter (fun r => r.recipe ≠ rid),
    favorites := s.favorites.filter (fun r => r.recipe ≠ rid),
    carts := s.carts.filter (fun r => r.recipe ≠ rid) }

/-- Read path of the serializer for a recipe's quantified ingredient
list: the (ingredient id, amount) pairs of its IngredientInRecipe rows. -/
def readIngredients (s : Store) (rid : Nat) : List (Nat × Int) :=
  (s.recipeIngredients.filter (fun r => r.recipe == rid)).map
    (fun r => (r.ingredient, r.amount))

/-- Read path of the serializer for a recipe's tag id set. -/
def readTags (s : Store) (rid : Nat) : List Nat :=
  (s.recipeTags.filter (fun r => r.recipe == rid)).map (fun r => r.tag)

/-- Insertion into the Ingredients table; the unique (name,
measurement_unit) constraint of Ingredients.Meta raises a conflict. -/
def insertIngredients (s : Store) (newId : Nat) (nm mu : String) :
    Except Err Store :=
  if s.ingredients.any (fun i => i.name == nm && i.measurement_unit == mu) then
    .error .conflict
  else
    .ok { s with ingredients := s.ingredients ++ [⟨newId, nm, mu⟩] }

/-- Insertion into the Tags table; name, color and slug are each unique. -/
def insertTags (s : Store) (tg : Tags) : Except Err Store :=
  if s.tags.any (fun t =>
      t.name == tg.name || t.color == tg.color || t.slug == tg.slug) then
    .error .conflict
  else
    .ok { s with tags := s.tags ++ [tg] }

/-- Insertion into the Favorite table; the unique (user, recipe)
constraint of BaseModelFavoriteCart.Meta raises a conflict. -/
def insertFavorite (s : Store) (u r : Nat) : Except Err Store :=
  if s.favorites.any (fun f => f.user == u && f.recipe == r) then
    .error .conflict
  else
    .ok { s with favorites := s.favorites ++ [⟨u, r⟩] }

/-- Insertion into the Cart table; the same unique (user, recipe)
constraint as Favorite. -/
def insertCart (s : Store) (u r : Nat) : Except Err Store :=
  if s.carts.any (fun c => c.user == u && c.recipe == r) then
    .error .conflict
  else
    .ok { s with carts := s.carts ++ [⟨u, r⟩] }

/-- Store with every table empty. -/
def emptyStore : Store := ⟨[], [], [], [], [], [], [], []⟩

/-- One step of the store through the operations of the core. A failed
create or update leaves the store unchanged, so those constructors cover
both outcomes through the first component of the result. -/
inductive Step : Store → Store → Prop where
  | ingredientRow (s s2 : Store) (i : Nat) (nm mu : String) :
      insertIngredients s i nm mu = .ok s2 → Step s s2
  | tagRow (s s2 : Store) (tg : Tags) : insertTags s tg = .ok s2 → Step s s2
  | favoriteRow (s s2 : Store) (u r : Nat) :
      insertFavorite s u r = .ok s2 → Step s s2
  | cartRow (s s2 : Store) (u r : Nat) :
      insertCart s u r = .ok s2 → Step s s2
  | createRecipe (cfg : Config) (s : Store) (author : Nat)
      (inp : RecipeInput) : Step s (create cfg s author inp).1
  | updateRecipe (cfg : Config) (s : Store) (rid author : Nat)
      (inp : RecipeInput) : Step s (update cfg s rid author inp).1
  | deleteStep (s : Store) (rid : Nat) : Step s (deleteRecipe s rid)

/-- Stores reachable from the empty store through the operations. -/
def Reachable (s : Store) : Prop :=
  Relation.ReflTransGen Step emptyStore s

/-- The pairwise uniqueness invariants declared by the model constraints:
Ingredients on (name, measurement_unit), IngredientInRecipe on
(ingredient, recipe), Favorite and Cart on (user, recipe). -/
def UniqueKeys (s : Store) : Prop :=
  s.ingredients.Pairwise
    (fun a b => ¬(a.name = b.name ∧ a.measurement_unit = b.measurement_unit)) ∧
  s.recipeIngredients.Pairwise
    (fun a b => ¬(a.ingredient = b.ingredient ∧ a.recipe = b.recipe)) ∧
  s.favorites.Pairwise (fun a b => ¬(a.user = b.user ∧ a.recipe = b.recipe)) ∧
  s.carts.Pairwise (fun a b => ¬(a.user = b.user ∧ a.recipe = b.recipe))

/-- Referential integrity of the association table: every
IngredientInRecipe row points at an existing Recipes row. -/
def RefIntact (s : Store) : Prop :=
  ∀ r ∈ s.recipeIngredients, ∃ rec ∈ s.recipes, rec.id = r.recipe

/-- Validity of the ingredient half of a write payload: non-empty, no
repeated ingredient id, every id resolves, every amount in range. -/
def IngredientsOk (cfg : Config) (s : Store) (l : List IngredientEntry) :
    Prop :=
  l ≠ [] ∧ (l.map (fun e => e.id)).Nodup ∧
    ∀ e ∈ l, (findIngredient s e.id).isSome = true ∧
      validate_amount cfg e.amount = .ok ()

/-- Validity of the tag half of a write payload. -/
def TagsOk (s : Store) (l : List Nat) : Prop :=
  l ≠ [] ∧ l.Nodup ∧ ∀ t ∈ l, (findTag s t).isSome = true

/-- Violation of some constraint by the ingredient half of a payload. -/
def IngredientsViolate (cfg : Config) (s : Store)
    (l : List IngredientEntry) : Prop :=
  l = [] ∨ (∃ e ∈ l, findIngredient s e.id = none) ∨
    ¬(l.map (fun e => e.id)).Nodup ∨
    ∃ e ∈ l, validate_amount cfg e.amount ≠ .ok ()

/-- Violation of some constraint by the tag half of a payload. -/
def TagsViolate (s : Store) (l : List Nat) : Prop :=
  l = [] ∨ (∃ t ∈ l, findTag s t = none) ∨ ¬l.Nodup

/-- Short recipe representation used inside subscription summaries
(ShortSerializer). -/
structure ShortRecipe where
  id : Nat
  name : String
  image : String
  cooking_time : Nat
deriving DecidableEq

/-- Projection of a Recipes row to its short representation. -/
def shortOf (r : Recipes) : ShortRecipe :=
  ⟨r.id, r.name, r.image, r.cooking_time⟩

/-- Filter of Recipes.objects.filter(author__following__user=u): the
recipe's author has a follower row whose user is u. -/
def followsAuthorOf (s : Store) (u : Nat) (r : Recipes) : Bool :=
  s.subscriptions.any (fun sub => sub.author == r.author && sub.user == u)

/-- The queryset of SubscribeSerializer.get_recipes before the limit:
recipes of authors followed by the user, in the default Recipes ordering
of descending primary key (Meta.ordering is -id). -/
def followedRecipesQuery (s : Store) (u : Nat) : List Recipes :=
  List.insertionSort (fun a b => b.id ≤ a.id)
    (s.recipes.filter (followsAuthorOf s u))

/-- SubscribeSerializer.get_is_subscribed: obj.user.follower.exists(),
i.e. whether any Subscribe row has the summary's user as its user. -/
def get_is_subscribed (s : Store) (obj : Subscribe) : Bool :=
  s.subscriptions.any (fun sub => sub.user == obj.user)

/-- SubscribeSerializer.get_recipes: the followed-author queryset,
truncated to the first recipes_limit rows when the query parameter is
present. -/
def get_recipes (s : Store) (obj : Subscribe) (recipes_limit : Option Nat) :
    List ShortRecipe :=
  let queryset := followedRecipesQuery s obj.user
  match recipes_limit with
  | some k => (queryset.take k).map shortOf
  | none => queryset.map shortOf

/-- SubscribeSerializer.get_recipes_count:
obj.author.recipe_author.count(). -/
def get_recipes_count (s : Store) (obj : Subscribe) : Nat :=
  (s.recipes.filter (fun r => r.author == obj.author)).length

instance (cfg : Config) (s : Store) (l : List IngredientEntry) :
    Decidable (IngredientsOk cfg s l) := by
  unfold IngredientsOk
  infer_instance

instance (s : Store) (l : List Nat) : Decidable (TagsOk s l) := by
  unfold TagsOk
  infer_instance

instance (cfg : Config) (s : Store) (l : List IngredientEntry) :
    Decidable (IngredientsViolate cfg s l) := by
  unfold IngredientsViolate
  infer_instance

instance (s : Store) (l : List Nat) : Decidable (TagsViolate s l) := by
  unfold TagsViolate
  infer_instance

instance (s : Store) : Decidable (RefIntact s) := by
  unfold RefIntact
  infer_instance

instance (s : Store) : Decidable (UniqueKeys s) := by
  unfold UniqueKeys
  have : ∀ (α : Type) (R : α → α → Prop) (l : List α),
      (∀ a b, Decidable (R a b)) → Decidable (l.Pairwise R) := by
    intro α R l h
    exact List.instDecidablePairwise l
  infer_instance

/-- Configuration used by the concrete witnesses. -/
def cfgW : Config := ⟨32000⟩

/-- Store used by the concrete witnesses: three ingredients, two tags. -/
def storeW : Store :=
  { emptyStore with
    ingredients := [⟨10, "salt", "g"⟩, ⟨11, "egg", "pc"⟩, ⟨12, "milk", "ml"⟩],
    tags := [⟨5, "breakfast", "#ff0000", "breakfast"⟩,
             ⟨6, "dinner", "#00ff00", "dinner"⟩] }

/-- Payload used by the concrete witnesses: two entries, two tags. -/
def inpW : RecipeInput :=
  ⟨"omelet", "beat and fry", "img.png", 10, [⟨10, 2⟩, ⟨11, 3⟩], [5, 6]⟩

/-- Store used by the C3 witness: recipe 1 currently has ingredient
associations A = (10, amount 2) and B = (11, amount 3) and tag 5. -/
def storeW3 : Store :=
  { storeW with
    recipes := [⟨1, "old", "old text", "old.png", 15, 7⟩],
    recipeIngredients := [⟨10, 1, 2⟩, ⟨11, 1, 3⟩],
    recipeTags := [⟨1, 5⟩] }

theorem findIngredient_id {s : Store} {i : Nat} {ing : Ingredients}
    (h : findIngredient s i = some ing) : ing.id = i := by
  have := List.find?_some h
  simpa using this

theorem findTag_id {s : Store} {t : Nat} {tg : Tags}
    (h : findTag s t = some tg) : tg.id = t := by
  have := List.find?_some h
  simpa using this

theorem exceptUnit_cases (x : Except Err Unit) :
    x = .ok () ∨ ∃ e, x = .error e := by
  cases x with
  | error e => exact Or.inr ⟨e, rfl⟩
  | ok u => cases u; exact Or.inl rfl

theorem ingredientsLoop_ok_imp (cfg : Config) (s : Store) :
    ∀ (l : List IngredientEntry) (seen : List Ingredients),
      ingredientsLoop cfg s l seen = .ok () →
      (l.map (fun e => e.id)).Nodup ∧
        ∀ e ∈ l, (findIngredient s e.id).isSome = true ∧
          validate_amount cfg e.amount = .ok () ∧
          ∀ ing, findIngredient s e.id = some ing → ing ∉ seen := by
  intro l
  induction l with
  | nil => intro seen _; simp
  | cons e rest ih =>
    intro seen h
    cases hf : findIngredient s e.id with
    | none =>
      simp only [ingredientsLoop, hf] at h
      exact Except.noConfusion h
    | some ing =>
      simp only [ingredientsLoop, hf] at h
      by_cases hm : ing ∈ seen
      · rw [if_pos hm] at h; exact absurd h (by simp)
      · rw [if_neg hm] at h
        cases ha : validate_amount cfg e.amount with
        | error er =>
          simp only [ha] at h
          exact Except.noConfusion h
        | ok u =>
          cases u
          simp only [ha] at h
          obtain ⟨hnd, hall⟩ := ih (seen ++ [ing]) h
          refine ⟨?_, ?_⟩
          · refine List.nodup_cons.2 ⟨?_, hnd⟩
            intro hmem
            obtain ⟨e2, he2, hid⟩ := List.mem_map.1 hmem
            have hf2 : findIngredient s e2.id = some ing := by
              rw [hid, hf]
            have := (hall e2 he2).2.2 ing hf2
            exact this (by simp)
          · intro e2 he2
            rcases List.mem_cons.1 he2 with rfl | hr
            · refine ⟨by rw [hf]; rfl, ha, ?_⟩
              intro ing2 hf2
              rw [hf] at hf2
              injection hf2 with hf2
              rwa [hf2] at hm
            · obtain ⟨h1, h2, h3⟩ := hall e2 hr
              refine ⟨h1, h2, ?_⟩
              intro ing2 hf2
              have := h3 ing2 hf2
              intro hmem
              exact this (by simp [hmem])

theorem ingredientsLoop_ok_of (cfg : Config) (s : Store) :
    ∀ (l : List IngredientEntry) (seen : List Ingredients),
      (l.map (fun e => e.id)).Nodup →
      (∀ e ∈ l, (findIngredient s e.id).isSome = true ∧
        validate_amount cfg e.amount = .ok ()) →
      (∀ e ∈ l, ∀ ing, findIngredient s e.id = some ing → ing ∉ seen) →
      ingredientsLoop cfg s l seen = .ok () := by
  intro l
  induction l with
  | nil => intro seen _ _ _; rfl
  | cons e rest ih =>
    intro seen hnd hall hseen
    have he := hall e (by simp)
    cases hf : findIngredient s e.id with
    | none => rw [hf] at he; exact absurd he.1 (by simp)
    | some ing =>
      have hm : ing ∉ seen := hseen e (by simp) ing hf
      simp only [ingredientsLoop, hf]
      rw [if_neg hm]
      simp only [he.2]
      refine ih (seen ++ [ing]) (List.nodup_cons.1 hnd).2
        (fun e2 he2 => hall e2 (by simp [he2])) ?_
      intro e2 he2 ing2 hf2 hmem
      rcases List.mem_append.1 hmem with hold | hnew
      · exact hseen e2 (by simp [he2]) ing2 hf2 hold
      · have hing2 : ing2 = ing := by simpa using hnew
        have hid2 : ing2.id = e2.id := findIngredient_id hf2
        have hid : ing.id = e.id := findIngredient_id hf
        have : e.id ∈ rest.map (fun x => x.id) := by
          refine List.mem_map.2 ⟨e2, he2, ?_⟩
          rw [← hid2, hing2, hid]
        exact (List.nodup_cons.1 hnd).1 this

theorem ingredientsLoop_missing (cfg : Config) (s : Store) :
    ∀ (l₁ : List IngredientEntry) (bad : IngredientEntry)
      (l₂ : List IngredientEntry) (seen : List Ingredients),
      (∀ e ∈ l₁, (findIngredient s e.id).isSome = true ∧
        validate_amount cfg e.amount = .ok ()) →
      (l₁.map (fun e => e.id)).Nodup →
      (∀ e ∈ l₁, ∀ ing, findIngredient s e.id = some ing → ing ∉ seen) →
      findIngredient s bad.id = none →
      ingredientsLoop cfg s (l₁ ++ bad :: l₂) seen = .error .notFound := by
  intro l₁
  induction l₁ with
  | nil =>
    intro bad l₂ seen _ _ _ hbad
    simp only [List.nil_append, ingredientsLoop, hbad]
  | cons e rest ih =>
    intro bad l₂ seen hall hnd hseen hbad
    have he := hall e (by simp)
    cases hf : findIngredient s e.id with
    | none => rw [hf] at he; exact absurd he.1 (by simp)
    | some ing =>
      have hm : ing ∉ seen := hseen e (by simp) ing hf
      simp only [List.cons_append, ingredientsLoop, hf]
      rw [if_neg hm]
      simp only [he.2]
      refine ih bad l₂ (seen ++ [ing])
        (fun e2 he2 => hall e2 (by simp [he2])) (List.nodup_cons.1 hnd).2
        ?_ hbad
      intro e2 he2 ing2 hf2 hmem
      rcases List.mem_append.1 hmem with hold | hnew
      · exact hseen e2 (by simp [he2]) ing2 hf2 hold
      · have hing2 : ing2 = ing := by simpa using hnew
        have hid2 : ing2.id = e2.id := findIngredient_id hf2
        have hid : ing.id = e.id := findIngredient_id hf
        have : e.id ∈ rest.map (fun x => x.id) := by
          refine List.mem_map.2 ⟨e2, he2, ?_⟩
          rw [← hid2, hing2, hid]
        exact (List.nodup_cons.1 hnd).1 this

theorem ingredientsLoop_cases (cfg : Config) (s : Store) :
    ∀ (l : List IngredientEntry) (seen : List Ingredients),
      (∀ e ∈ l, (findIngredient s e.id).isSome = true ∧
        validate_amount cfg e.amount = .ok ()) →
      ingredientsLoop cfg s l seen = .ok () ∨
        ingredientsLoop cfg s l seen = .error (.validation .ingredients) := by
  intro l
  induction l with
  | nil => intro seen _; exact Or.inl rfl
  | cons e rest ih =>
    intro seen hall
    have he := hall e (by simp)
    cases hf : findIngredient s e.id with
    | none => rw [hf] at he; exact absurd he.1 (by simp)
    | some ing =>
      simp only [ingredientsLoop, hf]
      by_cases hm : ing ∈ seen
      · rw [if_pos hm]; exact Or.inr rfl
      · rw [if_neg hm]
        simp only [he.2]
        exact ih (seen ++ [ing]) (fun e2 he2 => hall e2 (by simp [he2]))

theorem tagsLoop_ok_imp (s : Store) :
    ∀ (l : List Nat) (seen : List Tags),
      tagsLoop s l seen = .ok () →
      l.Nodup ∧ ∀ t ∈ l, (findTag s t).isSome = true ∧
        ∀ tg, findTag s t = some tg → tg ∉ seen := by
  intro l
  induction l with
  | nil => intro seen _; simp
  | cons t rest ih =>
    intro seen h
    cases hf : findTag s t with
    | none =>
      simp only [tagsLoop, hf] at h
      exact Except.noConfusion h
    | some tg =>
      simp only [tagsLoop, hf] at h
      by_cases hm : tg ∈ seen
      · rw [if_pos hm] at h; exact absurd h (by simp)
      · rw [if_neg hm] at h
        obtain ⟨hnd, hall⟩ := ih (seen ++ [tg]) h
        refine ⟨?_, ?_⟩
        · refine List.nodup_cons.2 ⟨?_, hnd⟩
          intro hmem
          have hf2 : findTag s t = some tg := hf
          have := (hall t hmem).2 tg hf2
          exact this (by simp)
        · intro t2 ht2
          rcases List.mem_cons.1 ht2 with rfl | hr
          · refine ⟨by rw [hf]; rfl, ?_⟩
            intro tg2 hf2
            rw [hf] at hf2
            injection hf2 with hf2
            rwa [hf2] at hm
          · obtain ⟨h1, h2⟩ := hall t2 hr
            refine ⟨h1, ?_⟩
            intro tg2 hf2
            have := h2 tg2 hf2
            intro hmem
            exact this (by simp [hmem])

theorem tagsLoop_ok_of (s : Store) :
    ∀ (l : List Nat) (seen : List Tags),
      l.Nodup →
      (∀ t ∈ l, (findTag s t).isSome = true) →
      (∀ t ∈ l, ∀ tg, findTag s t = some tg → tg ∉ seen) →
      tagsLoop s l seen = .ok () := by
  intro l
  induction l with
  | nil => intro seen _ _ _; rfl
  | cons t rest ih =>
    intro seen hnd hall hseen
    have ht := hall t (by simp)
    cases hf : findTag s t with
    | none => rw [hf] at ht; exact absurd ht (by simp)
    | some tg =>
      have hm : tg ∉ seen := hseen t (by simp) tg hf
      simp only [tagsLoop, hf]
      rw [if_neg hm]
      refine ih (seen ++ [tg]) (List.nodup_cons.1 hnd).2
        (fun t2 ht2 => hall t2 (by simp [ht2])) ?_
      intro t2 ht2 tg2 hf2 hmem
      rcases List.mem_append.1 hmem with hold | hnew
      · exact hseen t2 (by simp [ht2]) tg2 hf2 hold
      · have htg2 : tg2 = tg := by simpa using hnew
        have hid2 : tg2.id = t2 := findTag_id hf2
        have hid : tg.id = t := findTag_id hf
        have : t = t2 := by rw [← hid, ← htg2, hid2]
        exact (List.nodup_cons.1 hnd).1 (this ▸ ht2)

theorem tagsLoop_missing (s : Store) :
    ∀ (l₁ : List Nat) (bad : Nat) (l₂ : List Nat) (seen : List Tags),
      (∀ t ∈ l₁, (findTag s t).isSome = true) →
      l₁.Nodup →
      (∀ t ∈ l₁, ∀ tg, findTag s t = some tg → tg ∉ seen) →
      findTag s bad = none →
      tagsLoop s (l₁ ++ bad :: l₂) seen = .error .notFound := by
  intro l₁
  induction l₁ with
  | nil =>
    intro bad l₂ seen _ _ _ hbad
    simp only [List.nil_append, tagsLoop, hbad]
  | cons t rest ih =>
    intro bad l₂ seen hall hnd hseen hbad
    have ht := hall t (by simp)
    cases hf : findTag s t with
    | none => rw [hf] at ht; exact absurd ht (by simp)
    | some tg =>
      have hm : tg ∉ seen := hseen t (by simp) tg hf
      simp only [List.cons_append, tagsLoop, hf]
      rw [if_neg hm]
      refine ih bad l₂ (seen ++ [tg])
        (fun t2 ht2 => hall t2 (by simp [ht2])) (List.nodup_cons.1 hnd).2
        ?_ hbad
      intro t2 ht2 tg2 hf2 hmem
      rcases List.mem_append.1 hmem with hold | hnew
      · exact hseen t2 (by simp [ht2]) tg2 hf2 hold
      · have htg2 : tg2 = tg := by simpa using hnew
        have hid2 : tg2.id = t2 := findTag_id hf2
        have hid : tg.id = t := findTag_id hf
        have : t = t2 := by rw [← hid, ← htg2, hid2]
        exact (List.nodup_cons.1 hnd).1 (this ▸ ht2)

theorem tagsLoop_cases (s : Store) :
    ∀ (l : List Nat) (seen : List Tags),
      (∀ t ∈ l, (findTag s t).isSome = true) →
      tagsLoop s l seen = .ok () ∨
        tagsLoop s l seen = .error (.validation .tags) := by
  intro l
  induction l with
  | nil => intro seen _; exact Or.inl rfl
  | cons t rest ih =>
    intro seen hall
    have ht := hall t (by simp)
    cases hf : findTag s t with
    | none => rw [hf] at ht; exact absurd ht (by simp)
    | some tg =>
      simp only [tagsLoop, hf]
      by_cases hm : tg ∈ seen
      · rw [if_pos hm]; exact Or.inr rfl
      · rw [if_neg hm]
        exact ih (seen ++ [tg]) (fun t2 ht2 => hall t2 (by simp [ht2]))

theorem validateIngredientsPart_ok_iff (cfg : Config) (s : Store)
    (l : List IngredientEntry) :
    validateIngredientsPart cfg s l = .ok () ↔ IngredientsOk cfg s l := by
  cases l with
  | nil =>
    simp only [validateIngredientsPart, IngredientsOk]
    constructor
    · intro h; exact absurd h (by simp)
    · intro h; exact absurd rfl h.1
  | cons e rest =>
    simp only [validateIngredientsPart, IngredientsOk]
    constructor
    · intro h
      obtain ⟨hnd, hall⟩ := ingredientsLoop_ok_imp cfg s (e :: rest) [] h
      exact ⟨by simp, hnd, fun e2 he2 => ⟨(hall e2 he2).1, (hall e2 he2).2.1⟩⟩
    · intro ⟨_, hnd, hall⟩
      exact ingredientsLoop_ok_of cfg s (e :: rest) [] hnd hall
        (fun e2 _ ing _ hmem => absurd hmem (List.not_mem_nil ing))

theorem validateTagsPart_ok_iff (s : Store) (l : List Nat) :
    validateTagsPart s l = .ok () ↔ TagsOk s l := by
  cases l with
  | nil =>
    simp only [validateTagsPart, TagsOk]
    constructor
    · intro h; exact absurd h (by simp)
    · intro h; exact absurd rfl h.1
  | cons t rest =>
    simp only [validateTagsPart, TagsOk]
    constructor
    · intro h
      obtain ⟨hnd, hall⟩ := tagsLoop_ok_imp s (t :: rest) [] h
      exact ⟨by simp, hnd, fun t2 ht2 => (hall t2 ht2).1⟩
    · intro ⟨_, hnd, hall⟩
      exact tagsLoop_ok_of s (t :: rest) [] hnd hall
        (fun t2 _ tg _ hmem => absurd hmem (List.not_mem_nil tg))

theorem validate_ok_iff (cfg : Config) (s : Store) (inp : RecipeInput) :
    validate cfg s inp = .ok () ↔
      IngredientsOk cfg s inp.ingredients ∧ TagsOk s inp.tags := by
  unfold validate
  cases hi : validateIngredientsPart cfg s inp.ingredients with
  | error e =>
    simp only []
    constructor
    · intro h; exact absurd h (by simp)
    · intro ⟨h1, _⟩
      rw [(validateIngredientsPart_ok_iff cfg s inp.ingredients).2 h1] at hi
      exact absurd hi (by simp)
  | ok u =>
    cases u
    simp only []
    rw [validateTagsPart_ok_iff]
    constructor
    · intro h
      exact ⟨(validateIngredientsPart_ok_iff cfg s inp.ingredients).1 hi, h⟩
    · intro ⟨_, h2⟩; exact h2

theorem ingredientsViolate_iff_not_ok (cfg : Config) (s : Store)
    (l : List IngredientEntry) :
    IngredientsViolate cfg s l ↔ ¬IngredientsOk cfg s l := by
  unfold IngredientsViolate IngredientsOk
  constructor
  · rintro (h | ⟨e, he, hf⟩ | h | ⟨e, he, ha⟩) ⟨h1, h2, h3⟩
    · exact h1 h
    · have := (h3 e he).1
      rw [hf] at this
      exact absurd this (by simp)
    · exact h h2
    · exact ha (h3 e he).2
  · intro h
    by_cases h1 : l = []
    · exact Or.inl h1
    by_cases h2 : (l.map (fun e => e.id)).Nodup
    case neg => exact Or.inr (Or.inr (Or.inl h2))
    by_cases h3 : ∀ e ∈ l, (findIngredient s e.id).isSome = true ∧
        validate_amount cfg e.amount = .ok ()
    · exact absurd ⟨h1, h2, h3⟩ h
    · push_neg at h3
      obtain ⟨e, he, hbad⟩ := h3
      by_cases hf : (findIngredient s e.id).isSome = true
      · exact Or.inr (Or.inr (Or.inr ⟨e, he, hbad hf⟩))
      · refine Or.inr (Or.inl ⟨e, he, ?_⟩)
        cases hfe : findIngredient s e.id with
        | none => rfl
        | some ing => rw [hfe] at hf; exact absurd rfl hf

theorem tagsViolate_iff_not_ok (s : Store) (l : List Nat) :
    TagsViolate s l ↔ ¬TagsOk s l := by
  unfold TagsViolate TagsOk
  constructor
  · rintro (h | ⟨t, ht, hf⟩ | h) ⟨h1, h2, h3⟩
    · exact h1 h
    · have := h3 t ht
      rw [hf] at this
      exact absurd this (by simp)
    · exact h h2
  · intro h
    by_cases h1 : l = []
    · exact Or.inl h1
    by_cases h2 : l.Nodup
    case neg => exact Or.inr (Or.inr h2)
    by_cases h3 : ∀ t ∈ l, (findTag s t).isSome = true
    · exact absurd ⟨h1, h2, h3⟩ h
    · push_neg at h3
      obtain ⟨t, ht, hbad⟩ := h3
      refine Or.inr (Or.inl ⟨t, ht, ?_⟩)
      cases hft : findTag s t with
      | none => rfl
      | some tg => rw [hft] at hbad; exact absurd rfl hbad

theorem validate_err_of_ing {cfg : Config} {s : Store} {inp : RecipeInput}
    {e : Err} (h : validateIngredientsPart cfg s inp.ingredients = .error e) :
    validate cfg s inp = .error e := by
  unfold validate
  rw [h]

theorem validate_err_of_tags {cfg : Config} {s : Store} {inp : RecipeInput}
    {e : Err} (h1 : validateIngredientsPart cfg s inp.ingredients = .ok ())
    (h2 : validateTagsPart s inp.tags = .error e) :
    validate cfg s inp = .error e := by
  unfold validate
  rw [h1]
  exact h2

theorem create_ingredients_ok_state :
    ∀ (entries : List IngredientEntry) (rid : Nat) (t t2 : Store),
      create_ingredients entries rid t = .ok t2 →
      t2 = { t with recipeIngredients := t.recipeIngredients ++
                      entries.map (fun e => ⟨e.id, rid, e.amount⟩) } := by
  intro entries
  induction entries with
  | nil =>
    intro rid t t2 h
    simp only [create_ingredients] at h
    injection h with h
    rw [← h]
    simp
  | cons e rest ih =>
    intro rid t t2 h
    simp only [create_ingredients, insertIngredientInRecipe] at h
    by_cases hc : t.recipeIngredients.any
        (fun r => r.ingredient == e.id && r.recipe == rid)
    · rw [if_pos hc] at h
      exact Except.noConfusion h
    · rw [if_neg hc] at h
      have := ih rid _ t2 h
      rw [this]
      simp

theorem create_ingredients_ok_of :
    ∀ (entries : List IngredientEntry) (rid : Nat) (t : Store),
      (entries.map (fun e => e.id)).Nodup →
      (∀ e ∈ entries, ∀ r ∈ t.recipeIngredients,
        ¬(r.ingredient = e.id ∧ r.recipe = rid)) →
      ∃ t2, create_ingredients entries rid t = .ok t2 := by
  intro entries
  induction entries with
  | nil => intro rid t _ _; exact ⟨t, rfl⟩
  | cons e rest ih =>
    intro rid t hnd hnoc
    have hc : t.recipeIngredients.any
        (fun r => r.ingredient == e.id && r.recipe == rid) = false := by
      rw [List.any_eq_false]
      intro r hr
      have := hnoc e (by simp) r hr
      simp only [Bool.and_eq_true, beq_iff_eq]
      tauto
    simp only [create_ingredients, insertIngredientInRecipe, hc,
      Bool.false_eq_true, if_false]
    refine ih rid _ (List.nodup_cons.1 hnd).2 ?_
    intro e2 he2 r hr
    simp only at hr
    rcases List.mem_append.1 hr with hold | hnew
    · exact hnoc e2 (by simp [he2]) r hold
    · have hre : r = ⟨e.id, rid, e.amount⟩ := by simpa using hnew
      intro ⟨hi, _⟩
      rw [hre] at hi
      simp only at hi
      refine (List.nodup_cons.1 hnd).1 ?_
      refine List.mem_map.2 ⟨e2, he2, ?_⟩
      rw [← hi]

theorem create_ingredients_pairwise :
    ∀ (entries : List IngredientEntry) (rid : Nat) (t t2 : Store),
      create_ingredients entries rid t = .ok t2 →
      t.recipeIngredients.Pairwise
        (fun a b => ¬(a.ingredient = b.ingredient ∧ a.recipe = b.recipe)) →
      t2.recipeIngredients.Pairwise
        (fun a b => ¬(a.ingredient = b.ingredient ∧ a.recipe = b.recipe)) := by
  intro entries
  induction entries with
  | nil =>
    intro rid t t2 h hp
    simp only [create_ingredients] at h
    injection h with h
    rwa [← h]
  | cons e rest ih =>
    intro rid t t2 h hp
    simp only [create_ingredients, insertIngredientInRecipe] at h
    by_cases hc : t.recipeIngredients.any
        (fun r => r.ingredient == e.id && r.recipe == rid)
    · rw [if_pos hc] at h
      exact Except.noConfusion h
    · rw [if_neg hc] at h
      refine ih rid _ t2 h ?_
      simp only []
      rw [List.pairwise_append]
      refine ⟨hp, by simp, ?_⟩
      intro a ha b hb
      have hbe : b = ⟨e.id, rid, e.amount⟩ := by simpa using hb
      have hc2 : ¬(a.ingredient == e.id && a.recipe == rid) = true := by
        intro hx
        exact hc (List.any_eq_true.2 ⟨a, ha, hx⟩)
      simp only [Bool.and_eq_true, beq_iff_eq] at hc2
      rw [hbe]
      simp only []
      tauto

theorem le_foldr_max : ∀ (l : List Nat) (x : Nat), x ∈ l →
    x ≤ l.foldr max 0 := by
  intro l
  induction l with
  | nil => intro x h; exact absurd h (List.not_mem_nil x)
  | cons y rest ih =>
    intro x h
    rcases List.mem_cons.1 h with rfl | hr
    · exact Nat.le_max_left x (rest.foldr max 0)
    · exact Nat.le_trans (ih x hr) (Nat.le_max_right y (rest.foldr max 0))

theorem freshRecipeId_not_used (s : Store) :
    ∀ r ∈ s.recipes, r.id ≠ freshRecipeId s := by
  intro r hr
  have : r.id ≤ (s.recipes.map (fun x => x.id)).foldr max 0 :=
    le_foldr_max _ r.id (List.mem_map.2 ⟨r, hr, rfl⟩)
  unfold freshRecipeId
  omega

theorem create_fst_of_err (cfg : Config) (s : Store) (author : Nat)
    (inp : RecipeInput) (e : Err) :
    (create cfg s author inp).2 = .error e → (create cfg s author inp).1 = s := by
  unfold create
  cases hv : validate cfg s inp with
  | error e2 => intro _; rfl
  | ok u =>
    cases u
    cases hb : createBody s author inp with
    | error e2 => intro _; rfl
    | ok p =>
      intro h
      simp only [] at h
      exact Except.noConfusion h

theorem update_fst_of_err (cfg : Config) (s : Store) (rid author : Nat)
    (inp : RecipeInput) (e : Err) :
    (update cfg s rid author inp).2 = .error e →
    (update cfg s rid author inp).1 = s := by
  unfold update
  cases hv : validate cfg s inp with
  | error e2 => intro _; rfl
  | ok u =>
    cases u
    cases hb : updateBody s rid author inp with
    | error e2 => intro _; rfl
    | ok s3 =>
      intro h
      simp only [] at h
      exact Except.noConfusion h

theorem create_err_of_validate {cfg : Config} {s : Store} {author : Nat}
    {inp : RecipeInput} {e : Err} (h : validate cfg s inp = .error e) :
    create cfg s author inp = (s, .error e) := by
  unfold create
  rw [h]

theorem update_err_of_validate {cfg : Config} {s : Store}
    {rid author : Nat} {inp : RecipeInput}
    (h : validate cfg s inp = .error (e : Err)) :
    update cfg s rid author inp = (s, .error e) := by
  unfold update
  rw [h]

theorem create_success (cfg : Config) (s : Store) (author : Nat)
    (inp : RecipeInput)
    (hv : IngredientsOk cfg s inp.ingredients ∧ TagsOk s inp.tags)
    (href : RefIntact s) :
    ∃ s3, create cfg s author inp = (s3, .ok (freshRecipeId s))
      ∧ s3.recipeIngredients = s.recipeIngredients ++
          inp.ingredients.map (fun e => ⟨e.id, freshRecipeId s, e.amount⟩)
      ∧ s3.recipeTags = s.recipeTags.filter
            (fun r => r.recipe ≠ freshRecipeId s)
          ++ inp.tags.map (fun t => ⟨freshRecipeId s, t⟩)
      ∧ s3.recipes = s.recipes ++ [⟨freshRecipeId s, inp.name, inp.text,
          inp.image, inp.cooking_time, author⟩]
      ∧ s3.ingredients = s.ingredients ∧ s3.tags = s.tags
      ∧ s3.favorites = s.favorites ∧ s3.carts = s.carts
      ∧ s3.subscriptions = s.subscriptions := by
  have hvok : validate cfg s inp = .ok () := (validate_ok_iff cfg s inp).2 hv
  set rid := freshRecipeId s with hrid
  set s1 : Store := { s with recipes := s.recipes ++
    [⟨rid, inp.name, inp.text, inp.image, inp.cooking_time, author⟩] }
    with hs1
  set s2 := setTags s1 rid inp.tags with hs2
  have hs2ri : s2.recipeIngredients = s.recipeIngredients := by
    rw [hs2, hs1]; rfl
  have hnoc : ∀ e ∈ inp.ingredients, ∀ r ∈ s2.recipeIngredients,
      ¬(r.ingredient = e.id ∧ r.recipe = rid) := by
    intro e _ r hr ⟨_, h2⟩
    rw [hs2ri] at hr
    obtain ⟨rec, hrec, hrecid⟩ := href r hr
    exact freshRecipeId_not_used s rec hrec (by rw [hrecid, h2])
  obtain ⟨s3, hs3⟩ :=
    create_ingredients_ok_of inp.ingredients rid s2 hv.1.2.1 hnoc
  have hstate := create_ingredients_ok_state inp.ingredients rid s2 s3 hs3
  refine ⟨s3, ?_, ?_, ?_, ?_, ?_, ?_, ?_, ?_, ?_⟩
  · unfold create createBody
    rw [hvok]
    simp only [← hrid, ← hs1, ← hs2, hs3]
  · rw [hstate, hs2ri]
  · rw [hstate]
    have : s2.recipeTags = s.recipeTags.filter (fun r => r.recipe ≠ rid)
        ++ inp.tags.map (fun t => ⟨rid, t⟩) := by
      rw [hs2, hs1]; rfl
    exact this
  · rw [hstate]
    have : s2.recipes = s.recipes ++ [⟨rid, inp.name, inp.text, inp.image,
        inp.cooking_time, author⟩] := by
      rw [hs2, hs1]; rfl
    exact this
  · rw [hstate]; rw [hs2, hs1]; rfl
  · rw [hstate]; rw [hs2, hs1]; rfl
  · rw [hstate]; rw [hs2, hs1]; rfl
  · rw [hstate]; rw [hs2, hs1]; rfl
  · rw [hstate]; rw [hs2, hs1]; rfl

theorem update_success (cfg : Config) (s : Store) (rid author : Nat)
    (inp : RecipeInput)
    (hv : IngredientsOk cfg s inp.ingredients ∧ TagsOk s inp.tags) :
    ∃ s3, update cfg s rid author inp = (s3, .ok ())
      ∧ s3.recipeIngredients =
          s.recipeIngredients.filter (fun r => r.recipe ≠ rid) ++
            inp.ingredients.map (fun e => ⟨e.id, rid, e.amount⟩)
      ∧ s3.recipeTags = s.recipeTags.filter (fun r => r.recipe ≠ rid)
          ++ inp.tags.map (fun t => ⟨rid, t⟩)
      ∧ s3.recipes = s.recipes.map (fun r =>
          if r.id = rid then
            { r with name := inp.name, text := inp.text, image := inp.image,
                     cooking_time := inp.cooking_time, author := author }
          else r)
      ∧ s3.ingredients = s.ingredients ∧ s3.tags = s.tags
      ∧ s3.favorites = s.favorites ∧ s3.carts = s.carts
      ∧ s3.subscriptions = s.subscriptions := by
  have hvok : validate cfg s inp = .ok () := (validate_ok_iff cfg s inp).2 hv
  set sc := clearIngredients s rid with hsc
  have hnoc : ∀ e ∈ inp.ingredients, ∀ r ∈ sc.recipeIngredients,
      ¬(r.ingredient = e.id ∧ r.recipe = rid) := by
    intro e _ r hr ⟨_, h2⟩
    rw [hsc] at hr
    have := (List.mem_filter.1 hr).2
    simp only [ne_eq, decide_not, Bool.not_eq_eq_eq_not, Bool.not_true,
      decide_eq_false_iff_not] at this
    exact this h2
  obtain ⟨s2, hs2⟩ :=
    create_ingredients_ok_of inp.ingredients rid sc hv.1.2.1 hnoc
  have hstate := create_ingredients_ok_state inp.ingredients rid sc s2 hs2
  refine ⟨updateScalars (setTags s2 rid inp.tags) rid author inp, ?_, ?_,
    ?_, ?_, ?_, ?_, ?_, ?_, ?_⟩
  · unfold update updateBody
    rw [hvok]
    simp only [← hsc, hs2]
  · rw [hstate]
    have hscri : sc.recipeIngredients =
        s.recipeIngredients.filter (fun r => r.recipe ≠ rid) := by
      rw [hsc]; rfl
    rw [hscri]
    rfl
  · rw [hstate]
    have : sc.recipeTags = s.recipeTags := by rw [hsc]; rfl
    simp only [updateScalars, setTags]
    rw [this]
  · rw [hstate]
    have : sc.recipes = s.recipes := by rw [hsc]; rfl
    simp only [updateScalars, setTags]
    rw [this]
  · rw [hstate]; rw [hsc]; rfl
  · rw [hstate]; rw [hsc]; rfl
  · rw [hstate]; rw [hsc]; rfl
  · rw [hstate]; rw [hsc]; rfl
  · rw [hstate]; rw [hsc]; rfl

theorem filter_recipe_rows (rid : Nat) (old : List IngredientInRecipe)
    (entries : List IngredientEntry)
    (hold : ∀ r ∈ old, r.recipe ≠ rid) :
    (old ++ entries.map (fun e => (⟨e.id, rid, e.amount⟩ :
        IngredientInRecipe))).filter (fun r => r.recipe == rid) =
      entries.map (fun e => ⟨e.id, rid, e.amount⟩) := by
  rw [List.filter_append]
  have h1 : old.filter (fun r => r.recipe == rid) = [] := by
    rw [List.filter_eq_nil_iff]
    intro r hr h
    exact hold r hr (by simpa using h)
  have h2 : (entries.map (fun e => (⟨e.id, rid, e.amount⟩ :
      IngredientInRecipe))).filter (fun r => r.recipe == rid) =
      entries.map (fun e => ⟨e.id, rid, e.amount⟩) := by
    rw [List.filter_eq_self]
    intro r hr
    obtain ⟨e, _, he⟩ := List.mem_map.1 hr
    rw [← he]
    simp
  rw [h1, h2, List.nil_append]

theorem filter_tag_rows (rid : Nat) (old : List RecipeTag) (ts : List Nat)
    (hold : ∀ r ∈ old, r.recipe ≠ rid) :
    (old ++ ts.map (fun t => (⟨rid, t⟩ : RecipeTag))).filter
        (fun r => r.recipe == rid) =
      ts.map (fun t => ⟨rid, t⟩) := by
  rw [List.filter_append]
  have h1 : old.filter (fun r => r.recipe == rid) = [] := by
    rw [List.filter_eq_nil_iff]
    intro r hr h
    exact hold r hr (by simpa using h)
  have h2 : (ts.map (fun t => (⟨rid, t⟩ : RecipeTag))).filter
      (fun r => r.recipe == rid) = ts.map (fun t => ⟨rid, t⟩) := by
    rw [List.filter_eq_self]
    intro r hr
    obtain ⟨t, _, ht⟩ := List.mem_map.1 hr
    rw [← ht]
    simp
  rw [h1, h2, List.nil_append]

theorem mem_filter_ne_ri {rid : Nat} {l : List IngredientInRecipe}
    {r : IngredientInRecipe} (h : r ∈ l.filter (fun x => x.recipe ≠ rid)) :
    r.recipe ≠ rid := by
  have := (List.mem_filter.1 h).2
  simpa using this

theorem mem_filter_ne_rt {rid : Nat} {l : List RecipeTag} {r : RecipeTag}
    (h : r ∈ l.filter (fun x => x.recipe ≠ rid)) : r.recipe ≠ rid := by
  have := (List.mem_filter.1 h).2
  simpa using this

theorem create_ok_shape (cfg : Config) (s : Store) (author : Nat)
    (inp : RecipeInput) (newId : Nat) :
    (create cfg s author inp).2 = .ok newId →
    newId = freshRecipeId s ∧ validate cfg s inp = .ok () ∧
    ∃ s3, create_ingredients inp.ingredients (freshRecipeId s)
        (setTags { s with recipes := s.recipes ++ [⟨freshRecipeId s,
          inp.name, inp.text, inp.image, inp.cooking_time, author⟩] }
          (freshRecipeId s) inp.tags) = .ok s3
      ∧ (create cfg s author inp).1 = s3 := by
  unfold create createBody
  cases hv : validate cfg s inp with
  | error e => intro h; exact absurd h (by simp)
  | ok u =>
    cases u
    dsimp only
    cases hci : create_ingredients inp.ingredients (freshRecipeId s)
        (setTags { s with recipes := s.recipes ++ [⟨freshRecipeId s,
          inp.name, inp.text, inp.image, inp.cooking_time, author⟩] }
          (freshRecipeId s) inp.tags) with
    | error e => intro h; exact absurd h (by simp)
    | ok s3 =>
      intro h
      simp only [] at h
      injection h with h
      exact ⟨h.symm, rfl, s3, rfl, rfl⟩

theorem update_ok_shape (cfg : Config) (s : Store) (rid author : Nat)
    (inp : RecipeInput) :
    (update cfg s rid author inp).2 = .ok () →
    validate cfg s inp = .ok () ∧
    ∃ s2, create_ingredients inp.ingredients rid (clearIngredients s rid) =
        .ok s2
      ∧ (update cfg s rid author inp).1 =
          updateScalars (setTags s2 rid inp.tags) rid author inp := by
  unfold update updateBody
  cases hv : validate cfg s inp with
  | error e => intro h; exact absurd h (by simp)
  | ok u =>
    cases u
    dsimp only
    cases hci : create_ingredients inp.ingredients rid
        (clearIngredients s rid) with
    | error e => intro h; exact absurd h (by simp)
    | ok s2 => intro _; exact ⟨rfl, s2, rfl, rfl⟩

/-- C1: for every valid Create call whose N ingredient entries are at
least one, pairwise distinct and existing, and whose M tag ids are at
least one, pairwise distinct and existing (captured by IngredientsOk and
TagsOk), on a store whose association rows reference existing recipes,
the persisted recipe has exactly N IngredientInRecipe rows carrying the
given ids and amounts and exactly M tag associations, and reading the
recipe back immediately after Create yields exactly those sets. -/
theorem c1_create_persists_exact_sets (cfg : Config) (s : Store)
    (author : Nat) (inp : RecipeInput)
    (h1 : IngredientsOk cfg s inp.ingredients) (h2 : TagsOk s inp.tags)
    (href : RefIntact s) :
    ∃ rid, (create cfg s author inp).2 = .ok rid
      ∧ readIngredients (create cfg s author inp).1 rid =
          inp.ingredients.map (fun e => (e.id, e.amount))
      ∧ ((create cfg s author inp).1.recipeIngredients.filter
          (fun r => r.recipe == rid)).length = inp.ingredients.length
      ∧ readTags (create cfg s author inp).1 rid = inp.tags
      ∧ ((create cfg s author inp).1.recipeTags.filter
          (fun r => r.recipe == rid)).length = inp.tags.length := by
  obtain ⟨s3, hc, hri, hrt, _⟩ := create_success cfg s author inp ⟨h1, h2⟩ href
  have hfst : (create cfg s author inp).1 = s3 := by rw [hc]
  have hsnd : (create cfg s author inp).2 = .ok (freshRecipeId s) := by
    rw [hc]
  set rid := freshRecipeId s with hriddef
  have hold : ∀ r ∈ s.recipeIngredients, r.recipe ≠ rid := by
    intro r hr hco
    obtain ⟨rec, hrec, hid⟩ := href r hr
    exact freshRecipeId_not_used s rec hrec (by rw [hid, hco])
  have holdt : ∀ r ∈ s.recipeTags.filter (fun x => x.recipe ≠ rid),
      r.recipe ≠ rid := fun r hr => mem_filter_ne_rt hr
  have hfil := filter_recipe_rows rid s.recipeIngredients inp.ingredients hold
  have hfilt := filter_tag_rows rid
    (s.recipeTags.filter (fun x => x.recipe ≠ rid)) inp.tags holdt
  refine ⟨rid, hsnd, ?_, ?_, ?_, ?_⟩
  · rw [readIngredients, hfst, hri, hfil, List.map_map]
    rfl
  · rw [hfst, hri, hfil, List.length_map]
  · rw [readTags, hfst, hrt, hfilt, List.map_map]
    have hco : ((fun r : RecipeTag => r.tag) ∘ fun t => (⟨rid, t⟩ :
        RecipeTag)) = id := rfl
    rw [hco, List.map_id]
  · rw [hfst, hrt, hfilt, List.length_map]

/-- Witness for C1 on a concrete store and payload. -/
theorem c1_create_persists_exact_sets_witness :
    (IngredientsOk cfgW storeW inpW.ingredients ∧ TagsOk storeW inpW.tags ∧
      RefIntact storeW) ∧
    (∃ rid, (create cfgW storeW 7 inpW).2 = .ok rid
      ∧ readIngredients (create cfgW storeW 7 inpW).1 rid =
          inpW.ingredients.map (fun e => (e.id, e.amount))
      ∧ ((create cfgW storeW 7 inpW).1.recipeIngredients.filter
          (fun r => r.recipe == rid)).length = inpW.ingredients.length
      ∧ readTags (create cfgW storeW 7 inpW).1 rid = inpW.tags
      ∧ ((create cfgW storeW 7 inpW).1.recipeTags.filter
          (fun r => r.recipe == rid)).length = inpW.tags.length) :=
  ⟨⟨by decide, by decide, by decide⟩,
    c1_create_persists_exact_sets cfgW storeW 7 inpW (by decide) (by decide)
      (by decide)⟩

/-- C2: Create and Update are atomic. Whenever either operation returns
an error, the resulting store is exactly the prior store, so no partial
recipe (for instance tags set but ingredients missing) is ever
persisted; whenever it returns success, every write of the operation is
persisted: the recipe row with its scalar fields, one tag association
per supplied tag id, and one IngredientInRecipe row per supplied
entry. -/
theorem c2_create_update_atomic (cfg : Config) (s : Store)
    (author rid : Nat) (inp : RecipeInput) :
    (∀ e, (create cfg s author inp).2 = .error e →
        (create cfg s author inp).1 = s)
  ∧ (∀ newId, (create cfg s author inp).2 = .ok newId →
        (∃ rec ∈ (create cfg s author inp).1.recipes, rec.id = newId ∧
           rec.name = inp.name ∧ rec.text = inp.text ∧
           rec.image = inp.image ∧ rec.cooking_time = inp.cooking_time ∧
           rec.author = author)
      ∧ (∀ t ∈ inp.tags, (⟨newId, t⟩ : RecipeTag) ∈
          (create cfg s author inp).1.recipeTags)
      ∧ (∀ e ∈ inp.ingredients, (⟨e.id, newId, e.amount⟩ :
          IngredientInRecipe) ∈
          (create cfg s author inp).1.recipeIngredients))
  ∧ (∀ e, (update cfg s rid author inp).2 = .error e →
        (update cfg s rid author inp).1 = s)
  ∧ ((update cfg s rid author inp).2 = .ok () →
        (∀ t ∈ inp.tags, (⟨rid, t⟩ : RecipeTag) ∈
          (update cfg s rid author inp).1.recipeTags)
      ∧ (∀ e ∈ inp.ingredients, (⟨e.id, rid, e.amount⟩ :
          IngredientInRecipe) ∈
          (update cfg s rid author inp).1.recipeIngredients)
      ∧ (update cfg s rid author inp).1.recipes = s.recipes.map (fun r =>
          if r.id = rid then
            { r with name := inp.name, text := inp.text, image := inp.image,
                     cooking_time := inp.cooking_time, author := author }
          else r)) := by
  refine ⟨fun e => create_fst_of_err cfg s author inp e, ?_,
    fun e => update_fst_of_err cfg s rid author inp e, ?_⟩
  · intro newId hok
    obtain ⟨hid, _, s3, hci, hfst⟩ :=
      create_ok_shape cfg s author inp newId hok
    have hstate := create_ingredients_ok_state inp.ingredients
      (freshRecipeId s) _ s3 hci
    subst hid
    refine ⟨⟨(⟨freshRecipeId s, inp.name, inp.text, inp.image,
      inp.cooking_time, author⟩ : Recipes), ?_, rfl, rfl, rfl, rfl, rfl,
      rfl⟩, ?_, ?_⟩
    · rw [hfst, hstate]
      simp [setTags]
    · intro t ht
      rw [hfst, hstate]
      simp only [setTags]
      refine List.mem_append.2 (Or.inr ?_)
      exact List.mem_map.2 ⟨t, ht, rfl⟩
    · intro e he
      rw [hfst, hstate]
      refine List.mem_append.2 (Or.inr ?_)
      exact List.mem_map.2 ⟨e, he, rfl⟩
  · intro hok
    obtain ⟨_, s2, hci, hfst⟩ := update_ok_shape cfg s rid author inp hok
    have hstate := create_ingredients_ok_state inp.ingredients rid _ s2 hci
    refine ⟨?_, ?_, ?_⟩
    · intro t ht
      rw [hfst]
      simp only [updateScalars, setTags]
      refine List.mem_append.2 (Or.inr ?_)
      exact List.mem_map.2 ⟨t, ht, rfl⟩
    · intro e he
      rw [hfst]
      have : (updateScalars (setTags s2 rid inp.tags) rid author
          inp).recipeIngredients = s2.recipeIngredients := rfl
      rw [this, hstate]
      refine List.mem_append.2 (Or.inr ?_)
      exact List.mem_map.2 ⟨e, he, rfl⟩
    · rw [hfst]
      have h2 : s2.recipes = s.recipes := by rw [hstate]; rfl
      show s2.recipes.map _ = _
      rw [h2]

/-- Witness for C2: a Create whose payload has an empty ingredient list
fails and leaves the concrete store untouched, and a successful Create
on the same store persists its recipe row, tag links and ingredient
rows. -/
theorem c2_create_update_atomic_witness :
    ((create cfgW storeW 7 ⟨"x", "y", "z", 5, [], [5]⟩).2 =
        .error (.validation .ingredients) ∧
      (create cfgW storeW 7 ⟨"x", "y", "z", 5, [], [5]⟩).1 = storeW) ∧
    ((create cfgW storeW 7 inpW).2 = .ok 1 ∧
      (∀ t ∈ inpW.tags, (⟨1, t⟩ : RecipeTag) ∈
        (create cfgW storeW 7 inpW).1.recipeTags) ∧
      (∀ e ∈ inpW.ingredients, (⟨e.id, 1, e.amount⟩ : IngredientInRecipe) ∈
        (create cfgW storeW 7 inpW).1.recipeIngredients)) ∧
    ((update cfgW storeW3 1 7 inpW).2 = .ok () ∧
      (update cfgW storeW3 1 7 inpW).1.recipes = storeW3.recipes.map
        (fun r => if r.id = 1 then
          { r with name := inpW.name, text := inpW.text, image := inpW.image,
                   cooking_time := inpW.cooking_time, author := 7 }
        else r)) := by
  have hfail := (c2_create_update_atomic cfgW storeW 7 0
    ⟨"x", "y", "z", 5, [], [5]⟩).1 (.validation .ingredients) (by decide)
  have hok := (c2_create_update_atomic cfgW storeW 7 0 inpW).2.1 1 (by decide)
  have hupd := (c2_create_update_atomic cfgW storeW3 7 1 inpW).2.2.2
    (by decide)
  exact ⟨⟨by decide, hfail⟩, ⟨by decide, hok.2.1, hok.2.2⟩,
    ⟨by decide, hupd.2.2⟩⟩

/-- C3: Update replaces association sets wholesale. After a valid Update
the recipe's IngredientInRecipe rows are exactly one row per supplied
entry with its amount — every previous association of the recipe is
gone — and its tag links are exactly the supplied tag ids. -/
theorem c3_update_replaces_wholesale (cfg : Config) (s : Store)
    (rid author : Nat) (inp : RecipeInput)
    (h1 : IngredientsOk cfg s inp.ingredients) (h2 : TagsOk s inp.tags) :
    (update cfg s rid author inp).2 = .ok ()
      ∧ readIngredients (update cfg s rid author inp).1 rid =
          inp.ingredients.map (fun e => (e.id, e.amount))
      ∧ readTags (update cfg s rid author inp).1 rid = inp.tags := by
  obtain ⟨s3, hu, hri, hrt, _⟩ :=
    update_success cfg s rid author inp ⟨h1, h2⟩
  have hfst : (update cfg s rid author inp).1 = s3 := by rw [hu]
  have hsnd : (update cfg s rid author inp).2 = .ok () := by rw [hu]
  have hold : ∀ r ∈ s.recipeIngredients.filter (fun x => x.recipe ≠ rid),
      r.recipe ≠ rid := fun r hr => mem_filter_ne_ri hr
  have holdt : ∀ r ∈ s.recipeTags.filter (fun x => x.recipe ≠ rid),
      r.recipe ≠ rid := fun r hr => mem_filter_ne_rt hr
  have hfil := filter_recipe_rows rid
    (s.recipeIngredients.filter (fun x => x.recipe ≠ rid)) inp.ingredients
    hold
  have hfilt := filter_tag_rows rid
    (s.recipeTags.filter (fun x => x.recipe ≠ rid)) inp.tags holdt
  refine ⟨hsnd, ?_, ?_⟩
  · rw [readIngredients, hfst, hri, hfil, List.map_map]
    rfl
  · rw [readTags, hfst, hrt, hfilt, List.map_map]
    have hco : ((fun r : RecipeTag => r.tag) ∘ fun t => (⟨rid, t⟩ :
        RecipeTag)) = id := rfl
    rw [hco, List.map_id]

/-- Witness for C3: updating recipe 1 of the concrete store with the
single entry C = (12, amount 1) and tag 6 leaves exactly that
association set; A and B are gone. -/
theorem c3_update_replaces_wholesale_witness :
    (IngredientsOk cfgW storeW3 [⟨12, 1⟩] ∧ TagsOk storeW3 [6]) ∧
    ((update cfgW storeW3 1 7 ⟨"new", "new text", "new.png", 20,
        [⟨12, 1⟩], [6]⟩).2 = .ok ()
      ∧ readIngredients (update cfgW storeW3 1 7 ⟨"new", "new text",
          "new.png", 20, [⟨12, 1⟩], [6]⟩).1 1 =
          ([⟨12, 1⟩] : List IngredientEntry).map (fun e => (e.id, e.amount))
      ∧ readTags (update cfgW storeW3 1 7 ⟨"new", "new text", "new.png",
          20, [⟨12, 1⟩], [6]⟩).1 1 = [6]) :=
  ⟨⟨by decide, by decide⟩,
    c3_update_replaces_wholesale cfgW storeW3 1 7
      ⟨"new", "new text", "new.png", 20, [⟨12, 1⟩], [6]⟩ (by decide)
      (by decide)⟩

theorem validate_cases (cfg : Config) (s : Store) (inp : RecipeInput)
    (hfound : ∀ e ∈ inp.ingredients, (findIngredient s e.id).isSome = true)
    (hamount : ∀ e ∈ inp.ingredients,
      validate_amount cfg e.amount = .ok ())
    (htag : ∀ t ∈ inp.tags, (findTag s t).isSome = true) :
    validate cfg s inp = .ok () ∨
      validate cfg s inp = .error (.validation .ingredients) ∨
      validate cfg s inp = .error (.validation .tags) := by
  unfold validate
  cases hl : inp.ingredients with
  | nil => exact Or.inr (Or.inl rfl)
  | cons e rest =>
    simp only [validateIngredientsPart]
    rcases ingredientsLoop_cases cfg s (e :: rest) []
        (fun e2 he2 => ⟨hfound e2 (by rw [hl]; exact he2),
          hamount e2 (by rw [hl]; exact he2)⟩) with hok | herr
    · rw [hok]
      cases ht : inp.tags with
      | nil => exact Or.inr (Or.inr rfl)
      | cons t trest =>
        simp only [validateTagsPart]
        rcases tagsLoop_cases s (t :: trest) []
            (fun t2 ht2 => htag t2 (by rw [ht]; exact ht2)) with htok | hterr
        · rw [htok]; exact Or.inl rfl
        · rw [hterr]; exact Or.inr (Or.inr rfl)
    · rw [herr]; exact Or.inr (Or.inl rfl)

theorem create_ingredients_err_conflict :
    ∀ (entries : List IngredientEntry) (rid : Nat) (t : Store) (e : Err),
      create_ingredients entries rid t = .error e → e = .conflict := by
  intro entries
  induction entries with
  | nil =>
    intro rid t e h
    exact Except.noConfusion h
  | cons x rest ih =>
    intro rid t e h
    simp only [create_ingredients, insertIngredientInRecipe] at h
    by_cases hc : t.recipeIngredients.any
        (fun r => r.ingredient == x.id && r.recipe == rid)
    · rw [if_pos hc] at h
      injection h with h
      exact h.symm
    · rw [if_neg hc] at h
      exact ih rid _ e h

theorem createBody_err_conflict (s : Store) (author : Nat)
    (inp : RecipeInput) (e : Err) :
    createBody s author inp = .error e → e = .conflict := by
  unfold createBody
  dsimp only
  cases hci : create_ingredients inp.ingredients (freshRecipeId s)
      (setTags { s with recipes := s.recipes ++ [⟨freshRecipeId s,
        inp.name, inp.text, inp.image, inp.cooking_time, author⟩] }
        (freshRecipeId s) inp.tags) with
  | error e2 =>
    intro h
    injection h with h
    rw [← h]
    exact create_ingredients_err_conflict _ _ _ _ hci
  | ok s3 =>
    intro h
    exact Except.noConfusion h

theorem create_err_shape (cfg : Config) (s : Store) (author : Nat)
    (inp : RecipeInput) (e : Err) :
    (create cfg s author inp).2 = .error e →
    validate cfg s inp = .error e ∨
      (validate cfg s inp = .ok () ∧ e = .conflict) := by
  unfold create
  cases hv : validate cfg s inp with
  | error e2 =>
    intro h
    injection h with h
    rw [h]
    exact Or.inl rfl
  | ok u =>
    cases u
    cases hb : createBody s author inp with
    | error e2 =>
      intro h
      injection h with h
      rw [h] at hb
      exact Or.inr ⟨rfl, createBody_err_conflict s author inp e hb⟩
    | ok p =>
      intro h
      simp only [] at h
      exact Except.noConfusion h

/-- C4: whenever every supplied ingredient id and tag id resolves and
every amount is in range — so that the lookup and amount checks cannot
preempt — Create fails with a ValidationError and performs no write
exactly when the ingredient list is empty, an ingredient id repeats, the
tag list is empty, or a tag id repeats; in particular duplicates are
rejected outright, never merged or deduplicated. -/
theorem c4_create_validation_rejects (cfg : Config) (s : Store)
    (author : Nat) (inp : RecipeInput)
    (hfound : ∀ e ∈ inp.ingredients, (findIngredient s e.id).isSome = true)
    (hamount : ∀ e ∈ inp.ingredients,
      validate_amount cfg e.amount = .ok ())
    (htag : ∀ t ∈ inp.tags, (findTag s t).isSome = true) :
    (inp.ingredients = [] ∨ ¬(inp.ingredients.map (fun e => e.id)).Nodup ∨
        inp.tags = [] ∨ ¬inp.tags.Nodup)
      ↔ (∃ f, (create cfg s author inp).2 = .error (.validation f)) ∧
          (create cfg s author inp).1 = s := by
  constructor
  · intro h
    rcases validate_cases cfg s inp hfound hamount htag with hok | hi | ht
    · obtain ⟨⟨hne, hnd, _⟩, hneT, hndT, _⟩ := (validate_ok_iff cfg s inp).1 hok
      rcases h with h | h | h | h
      · exact absurd h hne
      · exact absurd hnd h
      · exact absurd h hneT
      · exact absurd hndT h
    · rw [create_err_of_validate hi]
      exact ⟨⟨.ingredients, rfl⟩, rfl⟩
    · rw [create_err_of_validate ht]
      exact ⟨⟨.tags, rfl⟩, rfl⟩
  · intro ⟨⟨f, herr⟩, _⟩
    rcases create_err_shape cfg s author inp _ herr with hv | ⟨_, habs⟩
    · have hnotok : ¬(validate cfg s inp = .ok ()) := by
        intro hok
        rw [hok] at hv
        exact Except.noConfusion hv
      have : ¬(IngredientsOk cfg s inp.ingredients ∧ TagsOk s inp.tags) :=
        fun hok => hnotok ((validate_ok_iff cfg s inp).2 hok)
      rcases Classical.not_and_iff_or_not_not.1 this with hni | hnt
      · rcases (ingredientsViolate_iff_not_ok cfg s inp.ingredients).2 hni
          with h | ⟨e, he, hf⟩ | h | ⟨e, he, ha⟩
        · exact Or.inl h
        · have := hfound e he
          rw [hf] at this
          exact absurd this (by simp)
        · exact Or.inr (Or.inl h)
        · exact absurd (hamount e he) ha
      · rcases (tagsViolate_iff_not_ok s inp.tags).2 hnt
          with h | ⟨t, ht, hf⟩ | h
        · exact Or.inr (Or.inr (Or.inl h))
        · have := htag t ht
          rw [hf] at this
          exact absurd this (by simp)
        · exact Or.inr (Or.inr (Or.inr h))
    · exact absurd habs.symm (by simp)

/-- Witness for C4: on the concrete store, a payload repeating
ingredient id 10 is rejected with a ValidationError and writes
nothing. -/
theorem c4_create_validation_rejects_witness :
    ((∀ e ∈ ([⟨10, 2⟩, ⟨10, 3⟩] : List IngredientEntry),
        (findIngredient storeW e.id).isSome = true) ∧
      ¬(([⟨10, 2⟩, ⟨10, 3⟩] : List IngredientEntry).map
        (fun e => e.id)).Nodup) ∧
    (∃ f, (create cfgW storeW 7 ⟨"x", "y", "z", 5, [⟨10, 2⟩, ⟨10, 3⟩],
        [5]⟩).2 = .error (.validation f)) ∧
      (create cfgW storeW 7 ⟨"x", "y", "z", 5, [⟨10, 2⟩, ⟨10, 3⟩],
        [5]⟩).1 = storeW :=
  ⟨⟨by decide, by decide⟩,
    (c4_create_validation_rejects cfgW storeW 7
      ⟨"x", "y", "z", 5, [⟨10, 2⟩, ⟨10, 3⟩], [5]⟩ (by decide) (by decide)
      (by decide)).1 (Or.inr (Or.inl (by decide)))⟩

theorem first_false_split {α : Type} (p : α → Bool) :
    ∀ (l : List α), (∃ x ∈ l, p x = false) →
      ∃ l₁ x l₂, l = l₁ ++ x :: l₂ ∧ (∀ y ∈ l₁, p y = true) ∧
        p x = false := by
  intro l
  induction l with
  | nil => rintro ⟨x, hx, _⟩; exact absurd hx (List.not_mem_nil x)
  | cons a rest ih =>
    rintro ⟨x, hx, hpx⟩
    by_cases hpa : p a = true
    · have hxr : x ∈ rest := by
        rcases List.mem_cons.1 hx with rfl | h
        · rw [hpa] at hpx; exact absurd hpx (by simp)
        · exact h
      obtain ⟨l₁, y, l₂, heq, hall, hy⟩ := ih ⟨x, hxr, hpx⟩
      refine ⟨a :: l₁, y, l₂, by rw [heq]; rfl, ?_, hy⟩
      intro z hz
      rcases List.mem_cons.1 hz with rfl | h
      · exact hpa
      · exact hall z h
    · exact ⟨[], a, rest, rfl, by simp, by simpa using hpa⟩

theorem validateIngredientsPart_eq_loop (cfg : Config) (s : Store)
    (l : List IngredientEntry) (h : l ≠ []) :
    validateIngredientsPart cfg s l = ingredientsLoop cfg s l [] := by
  cases l with
  | nil => exact absurd rfl h
  | cons e rest => rfl

theorem validateTagsPart_eq_loop (s : Store) (l : List Nat) (h : l ≠ []) :
    validateTagsPart s l = tagsLoop s l [] := by
  cases l with
  | nil => exact absurd rfl h
  | cons t rest => rfl

theorem validate_err_of_missing (cfg : Config) (s : Store)
    (inp : RecipeInput)
    (hmiss : (∃ e ∈ inp.ingredients, findIngredient s e.id = none) ∨
             (∃ t ∈ inp.tags, findTag s t = none)) :
    ∃ er, validate cfg s inp = .error er := by
  rcases exceptUnit_cases (validate cfg s inp) with hok | herr
  · exfalso
    obtain ⟨⟨_, _, hall⟩, _, _, hallT⟩ := (validate_ok_iff cfg s inp).1 hok
    rcases hmiss with ⟨e, he, hf⟩ | ⟨t, ht, hf⟩
    · have := (hall e he).1
      rw [hf] at this
      exact absurd this (by simp)
    · have := hallT t ht
      rw [hf] at this
      exact absurd this (by simp)
  · exact herr

theorem validate_missing_notFound (cfg : Config) (s : Store)
    (inp : RecipeInput)
    (hne : inp.ingredients ≠ [])
    (hnd : (inp.ingredients.map (fun e => e.id)).Nodup)
    (hamount : ∀ e ∈ inp.ingredients,
      validate_amount cfg e.amount = .ok ())
    (hneT : inp.tags ≠ []) (hndT : inp.tags.Nodup)
    (hmiss : (∃ e ∈ inp.ingredients, findIngredient s e.id = none) ∨
             (∃ t ∈ inp.tags, findTag s t = none)) :
    validate cfg s inp = .error .notFound := by
  by_cases hing : ∃ e ∈ inp.ingredients, findIngredient s e.id = none
  · obtain ⟨l₁, bad, l₂, heq, hall, hbadf⟩ :=
      first_false_split (fun e => (findIngredient s e.id).isSome)
        inp.ingredients
        (by
          obtain ⟨e, he, hf⟩ := hing
          refine ⟨e, he, ?_⟩
          show (findIngredient s e.id).isSome = false
          rw [hf]
          rfl)
    have hbad : findIngredient s bad.id = none := by
      cases hf : findIngredient s bad.id with
      | none => rfl
      | some ing => rw [hf] at hbadf; exact absurd hbadf (by simp)
    have hloop := ingredientsLoop_missing cfg s l₁ bad l₂ []
      (fun e he => ⟨hall e he, hamount e (by rw [heq]; simp [he])⟩)
      (by
        have := hnd
        rw [heq, List.map_append] at this
        exact this.of_append_left)
      (fun e _ ing _ hmem => absurd hmem (List.not_mem_nil ing))
      hbad
    apply validate_err_of_ing
    rw [validateIngredientsPart_eq_loop cfg s inp.ingredients hne, heq]
    exact hloop
  · push_neg at hing
    have hfound : ∀ e ∈ inp.ingredients,
        (findIngredient s e.id).isSome = true := by
      intro e he
      cases hf : findIngredient s e.id with
      | none => exact absurd hf (hing e he)
      | some ing => rfl
    have hpart : validateIngredientsPart cfg s inp.ingredients = .ok () := by
      rw [validateIngredientsPart_eq_loop cfg s inp.ingredients hne]
      exact ingredientsLoop_ok_of cfg s inp.ingredients [] hnd
        (fun e he => ⟨hfound e he, hamount e he⟩)
        (fun e _ ing _ hmem => absurd hmem (List.not_mem_nil ing))
    rcases hmiss with ⟨e, he, hf⟩ | htagmiss
    · exact absurd hf (hing e he)
    · obtain ⟨l₁, bad, l₂, heq, hall, hbadf⟩ :=
        first_false_split (fun t => (findTag s t).isSome) inp.tags
          (by
            obtain ⟨t, ht, hf⟩ := htagmiss
            refine ⟨t, ht, ?_⟩
            show (findTag s t).isSome = false
            rw [hf]
            rfl)
      have hbad : findTag s bad = none := by
        cases hf : findTag s bad with
        | none => rfl
        | some tg => rw [hf] at hbadf; exact absurd hbadf (by simp)
      have hloop := tagsLoop_missing s l₁ bad l₂ [] hall
        (by rw [heq] at hndT; exact hndT.of_append_left)
        (fun t _ tg _ hmem => absurd hmem (List.not_mem_nil tg)) hbad
      apply validate_err_of_tags hpart
      rw [validateTagsPart_eq_loop s inp.tags hneT, heq]
      exact hloop

/-- C5: whenever any supplied ingredient id or tag id does not resolve
to an existing row, Create fails during validation and performs no
write; and when the payload carries no other violation that the
validation order checks first (non-empty distinct lists, in-range
amounts), the failure is specifically the NotFound error. -/
theorem c5_missing_id_not_found (cfg : Config) (s : Store) (author : Nat)
    (inp : RecipeInput)
    (hmiss : (∃ e ∈ inp.ingredients, findIngredient s e.id = none) ∨
             (∃ t ∈ inp.tags, findTag s t = none)) :
    ((∃ er, (create cfg s author inp).2 = .error er) ∧
      (create cfg s author inp).1 = s) ∧
    (inp.ingredients ≠ [] →
      (inp.ingredients.map (fun e => e.id)).Nodup →
      (∀ e ∈ inp.ingredients, validate_amount cfg e.amount = .ok ()) →
      inp.tags ≠ [] → inp.tags.Nodup →
      (create cfg s author inp).2 = .error .notFound) := by
  constructor
  · obtain ⟨er, hv⟩ := validate_err_of_missing cfg s inp hmiss
    rw [create_err_of_validate hv]
    exact ⟨⟨er, rfl⟩, rfl⟩
  · intro hne hnd hamount hneT hndT
    have hv := validate_missing_notFound cfg s inp hne hnd hamount hneT
      hndT hmiss
    rw [create_err_of_validate hv]

/-- Witness for C5: ingredient id 99 does not exist in the concrete
store, so Create fails with NotFound and writes nothing. -/
theorem c5_missing_id_not_found_witness :
    (∃ e ∈ ([⟨99, 1⟩] : List IngredientEntry),
      findIngredient storeW e.id = none) ∧
    (create cfgW storeW 7 ⟨"x", "y", "z", 5, [⟨99, 1⟩], [5]⟩).1 = storeW ∧
    (create cfgW storeW 7 ⟨"x", "y", "z", 5, [⟨99, 1⟩], [5]⟩).2 =
      .error .notFound := by
  have h := c5_missing_id_not_found cfgW storeW 7
    ⟨"x", "y", "z", 5, [⟨99, 1⟩], [5]⟩ (Or.inl (by decide))
  exact ⟨by decide, h.1.2,
    h.2 (by decide) (by decide) (by decide) (by decide) (by decide)⟩

/-- C10: the validator checks the ingredient list fully before any tag
check — whenever both halves of the payload violate a constraint, the
error raised is exactly the error of the ingredient half, the tag checks
never being reached — and inside the ingredient loop each entry's
existence is checked before its duplication, so an entry list whose
nonexistent id precedes its duplicate (all earlier entries existing,
non-repeated and in range) fails with NotFound rather than
ValidationError. -/
theorem c10_validation_order (cfg : Config) (s : Store) (author : Nat) :
    (∀ inp : RecipeInput, IngredientsViolate cfg s inp.ingredients →
      TagsViolate s inp.tags →
      ∃ e, validateIngredientsPart cfg s inp.ingredients = .error e ∧
        validate cfg s inp = .error e ∧
        create cfg s author inp = (s, .error e))
  ∧ (∀ (l₁ : List IngredientEntry) (bad : IngredientEntry)
      (l₂ : List IngredientEntry) (inp : RecipeInput),
      inp.ingredients = l₁ ++ bad :: l₂ →
      (∀ e ∈ l₁, (findIngredient s e.id).isSome = true ∧
        validate_amount cfg e.amount = .ok ()) →
      (l₁.map (fun e => e.id)).Nodup →
      findIngredient s bad.id = none →
      validate cfg s inp = .error .notFound ∧
        create cfg s author inp = (s, .error .notFound)) := by
  constructor
  · intro inp hiv _
    have hnot : ¬IngredientsOk cfg s inp.ingredients :=
      (ingredientsViolate_iff_not_ok cfg s inp.ingredients).1 hiv
    rcases exceptUnit_cases (validateIngredientsPart cfg s inp.ingredients)
      with hok | ⟨e, herr⟩
    · exact absurd ((validateIngredientsPart_ok_iff cfg s
        inp.ingredients).1 hok) hnot
    · exact ⟨e, herr, validate_err_of_ing herr,
        create_err_of_validate (validate_err_of_ing herr)⟩
  · intro l₁ bad l₂ inp heq hall hnd hbad
    have hne : inp.ingredients ≠ [] := by
      rw [heq]
      intro hnil
      rcases List.append_eq_nil.1 hnil with ⟨_, h2⟩
      exact List.noConfusion h2
    have hloop := ingredientsLoop_missing cfg s l₁ bad l₂ [] hall hnd
      (fun e _ ing _ hmem => absurd hmem (List.not_mem_nil ing)) hbad
    have hv : validate cfg s inp = .error .notFound := by
      apply validate_err_of_ing
      rw [validateIngredientsPart_eq_loop cfg s inp.ingredients hne, heq]
      exact hloop
    exact ⟨hv, create_err_of_validate hv⟩

/-- Witness for C10: a payload whose ingredient list repeats id 10 and
whose tag list is empty fails with the ingredient-half error, and an
entry list with nonexistent id 99 at position 1 and a duplicate only at
position 2 fails with NotFound. -/
theorem c10_validation_order_witness :
    (IngredientsViolate cfgW storeW [⟨10, 2⟩, ⟨10, 3⟩] ∧
      TagsViolate storeW ([] : List Nat) ∧
      (∃ e, validateIngredientsPart cfgW storeW [⟨10, 2⟩, ⟨10, 3⟩] =
          .error e ∧
        validate cfgW storeW ⟨"x", "y", "z", 5, [⟨10, 2⟩, ⟨10, 3⟩], []⟩ =
          .error e ∧
        create cfgW storeW 7 ⟨"x", "y", "z", 5, [⟨10, 2⟩, ⟨10, 3⟩], []⟩ =
          (storeW, .error e))) ∧
    (validate cfgW storeW ⟨"x", "y", "z", 5, [⟨10, 2⟩, ⟨99, 1⟩, ⟨10, 5⟩],
        [5]⟩ = .error .notFound ∧
      create cfgW storeW 7 ⟨"x", "y", "z", 5, [⟨10, 2⟩, ⟨99, 1⟩, ⟨10, 5⟩],
        [5]⟩ = (storeW, .error .notFound)) :=
  ⟨⟨by decide, by decide,
     (c10_validation_order cfgW storeW 7).1
       ⟨"x", "y", "z", 5, [⟨10, 2⟩, ⟨10, 3⟩], []⟩ (by decide) (by decide)⟩,
   (c10_validation_order cfgW storeW 7).2 [⟨10, 2⟩] ⟨99, 1⟩ [⟨10, 5⟩]
     ⟨"x", "y", "z", 5, [⟨10, 2⟩, ⟨99, 1⟩, ⟨10, 5⟩], [5]⟩ rfl (by decide)
     (by decide) (by decide)⟩

/-- C6 (refuting the claim as stated): the serializer computes
is_subscribed as obj.user.follower.exists(), which only asks whether the
requesting user follows anyone. On a store whose only Subscription row
is (user 1, author 2), the summary of (user 1, author 3) reports
is_subscribed = true even though no Subscription row links user 1 to
author 3 — contradicting the claim and the method's own stated purpose
of returning the subscription status on the summarized author. -/
theorem c6_is_subscribed_ignores_author :
    get_is_subscribed { emptyStore with subscriptions := [⟨1, 2⟩] }
        ⟨1, 3⟩ = true ∧
    ¬∃ row ∈ ({ emptyStore with subscriptions := [⟨1, 2⟩] } :
        Store).subscriptions, row.user = 1 ∧ row.author = 3 :=
  ⟨by decide, by decide⟩

/-- C7: with recipes_limit = k the recipes field of a subscription
summary holds exactly min(k, length of the followed-authors recipe list)
items, namely the first k of that list, which is ordered most recent
first (descending primary key) and contains precisely the recipes
authored by anyone the user follows; recipes_count meanwhile counts all
recipes of the summarized author, ignoring the limit. -/
theorem c7_recipes_limit_and_count (s : Store) (obj : Subscribe)
    (k : Nat) :
    (get_recipes s obj (some k)).length =
      min k (followedRecipesQuery s obj.user).length
  ∧ get_recipes s obj (some k) =
      ((followedRecipesQuery s obj.user).take k).map shortOf
  ∧ List.Sorted (fun a b => b.id ≤ a.id) (followedRecipesQuery s obj.user)
  ∧ (followedRecipesQuery s obj.user).Perm
      (s.recipes.filter (followsAuthorOf s obj.user))
  ∧ get_recipes_count s obj =
      (s.recipes.filter (fun r => r.author == obj.author)).length := by
  haveI htot : IsTotal Recipes (fun a b => b.id ≤ a.id) :=
    ⟨fun a b => Nat.le_total b.id a.id⟩
  haveI htr : IsTrans Recipes (fun a b => b.id ≤ a.id) :=
    ⟨fun a b c hab hbc => Nat.le_trans hbc hab⟩
  refine ⟨?_, rfl, ?_, ?_, rfl⟩
  · show (((followedRecipesQuery s obj.user).take k).map shortOf).length = _
    rw [List.length_map, List.length_take]
  · exact List.sorted_insertionSort _ _
  · exact List.perm_insertionSort _ _

/-- C9: deleting a recipe removes its Recipes row and cascades to every
IngredientInRecipe, Favorite and Cart row referencing it, so afterwards
no row of any of those tables references the deleted recipe. -/
theorem c9_delete_cascades (s : Store) (rid : Nat) :
    (∀ r ∈ (deleteRecipe s rid).recipes, r.id ≠ rid)
  ∧ (∀ r ∈ (deleteRecipe s rid).recipeIngredients, r.recipe ≠ rid)
  ∧ (∀ r ∈ (deleteRecipe s rid).favorites, r.recipe ≠ rid)
  ∧ (∀ r ∈ (deleteRecipe s rid).carts, r.recipe ≠ rid) := by
  refine ⟨?_, ?_, ?_, ?_⟩
  · intro r hr
    have := (List.mem_filter.1 hr).2
    simpa using this
  · intro r hr
    exact mem_filter_ne_ri hr
  · intro r hr
    have := (List.mem_filter.1 hr).2
    simpa using this
  · intro r hr
    have := (List.mem_filter.1 hr).2
    simpa using this

theorem pairwise_append_one {α : Type} {R : α → α → Prop} {l : List α}
    {a : α} (hp : l.Pairwise R) (h : ∀ x ∈ l, R x a) :
    (l ++ [a]).Pairwise R := by
  rw [List.pairwise_append]
  refine ⟨hp, List.pairwise_singleton R a, ?_⟩
  intro x hx b hb
  have : b = a := by simpa using hb
  rw [this]
  exact h x hx

theorem uniqueKeys_insertIngredients {s s2 : Store} {i : Nat}
    {nm mu : String} (h : insertIngredients s i nm mu = .ok s2)
    (hu : UniqueKeys s) : UniqueKeys s2 := by
  unfold insertIngredients at h
  by_cases hc : s.ingredients.any
      (fun x => x.name == nm && x.measurement_unit == mu)
  · rw [if_pos hc] at h
    exact Except.noConfusion h
  · rw [if_neg hc] at h
    injection h with h
    rw [← h]
    refine ⟨?_, hu.2.1, hu.2.2.1, hu.2.2.2⟩
    refine pairwise_append_one hu.1 ?_
    intro x hx ⟨h1, h2⟩
    exact hc (List.any_eq_true.2 ⟨x, hx, by simp [h1, h2]⟩)

theorem uniqueKeys_insertTags {s s2 : Store} {tg : Tags}
    (h : insertTags s tg = .ok s2) (hu : UniqueKeys s) : UniqueKeys s2 := by
  unfold insertTags at h
  by_cases hc : s.tags.any (fun t =>
      t.name == tg.name || t.color == tg.color || t.slug == tg.slug)
  · rw [if_pos hc] at h
    exact Except.noConfusion h
  · rw [if_neg hc] at h
    injection h with h
    rw [← h]
    exact hu

theorem uniqueKeys_insertFavorite {s s2 : Store} {u r : Nat}
    (h : insertFavorite s u r = .ok s2) (hu : UniqueKeys s) :
    UniqueKeys s2 := by
  unfold insertFavorite at h
  by_cases hc : s.favorites.any (fun f => f.user == u && f.recipe == r)
  · rw [if_pos hc] at h
    exact Except.noConfusion h
  · rw [if_neg hc] at h
    injection h with h
    rw [← h]
    refine ⟨hu.1, hu.2.1, ?_, hu.2.2.2⟩
    refine pairwise_append_one hu.2.2.1 ?_
    intro x hx ⟨h1, h2⟩
    exact hc (List.any_eq_true.2 ⟨x, hx, by simp [h1, h2]⟩)

theorem uniqueKeys_insertCart {s s2 : Store} {u r : Nat}
    (h : insertCart s u r = .ok s2) (hu : UniqueKeys s) : UniqueKeys s2 := by
  unfold insertCart at h
  by_cases hc : s.carts.any (fun c => c.user == u && c.recipe == r)
  · rw [if_pos hc] at h
    exact Except.noConfusion h
  · rw [if_neg hc] at h
    injection h with h
    rw [← h]
    refine ⟨hu.1, hu.2.1, hu.2.2.1, ?_⟩
    refine pairwise_append_one hu.2.2.2 ?_
    intro x hx ⟨h1, h2⟩
    exact hc (List.any_eq_true.2 ⟨x, hx, by simp [h1, h2]⟩)

theorem create_ingredients_other_tables :
    ∀ (entries : List IngredientEntry) (rid : Nat) (t t2 : Store),
      create_ingredients entries rid t = .ok t2 →
      t2.ingredients = t.ingredients ∧ t2.favorites = t.favorites ∧
        t2.carts = t.carts := by
  intro entries rid t t2 h
  rw [create_ingredients_ok_state entries rid t t2 h]
  exact ⟨rfl, rfl, rfl⟩

theorem uniqueKeys_create (cfg : Config) (s : Store) (author : Nat)
    (inp : RecipeInput) (hu : UniqueKeys s) :
    UniqueKeys (create cfg s author inp).1 := by
  unfold create
  cases hv : validate cfg s inp with
  | error e => exact hu
  | ok u =>
    cases u
    cases hb : createBody s author inp with
    | error e => exact hu
    | ok p =>
      simp only []
      unfold createBody at hb
      dsimp only at hb
      revert hb
      cases hci : create_ingredients inp.ingredients (freshRecipeId s)
          (setTags { s with recipes := s.recipes ++ [⟨freshRecipeId s,
            inp.name, inp.text, inp.image, inp.cooking_time, author⟩] }
            (freshRecipeId s) inp.tags) with
      | error e => intro hb; exact Except.noConfusion hb
      | ok s3 =>
        intro hb
        injection hb with hb
        rw [← hb]
        obtain ⟨hig, hfav, hcart⟩ :=
          create_ingredients_other_tables _ _ _ _ hci
        have hpw := create_ingredients_pairwise _ _ _ _ hci hu.2.1
        exact ⟨hig ▸ hu.1, hpw, hfav ▸ hu.2.2.1, hcart ▸ hu.2.2.2⟩

theorem uniqueKeys_update (cfg : Config) (s : Store) (rid author : Nat)
    (inp : RecipeInput) (hu : UniqueKeys s) :
    UniqueKeys (update cfg s rid author inp).1 := by
  unfold update
  cases hv : validate cfg s inp with
  | error e => exact hu
  | ok u =>
    cases u
    cases hb : updateBody s rid author inp with
    | error e => exact hu
    | ok s3 =>
      simp only []
      unfold updateBody at hb
      revert hb
      cases hci : create_ingredients inp.ingredients rid
          (clearIngredients s rid) with
      | error e => intro hb; exact Except.noConfusion hb
      | ok s2 =>
        intro hb
        injection hb with hb
        rw [← hb]
        obtain ⟨hig, hfav, hcart⟩ :=
          create_ingredients_other_tables _ _ _ _ hci
        have hcl : (clearIngredients s rid).recipeIngredients.Pairwise
            (fun a b =>
              ¬(a.ingredient = b.ingredient ∧ a.recipe = b.recipe)) :=
          List.Pairwise.filter _ hu.2.1
        have hpw := create_ingredients_pairwise _ _ _ _ hci hcl
        exact ⟨hig ▸ hu.1, hpw, hfav ▸ hu.2.2.1, hcart ▸ hu.2.2.2⟩

theorem uniqueKeys_delete (s : Store) (rid : Nat) (hu : UniqueKeys s) :
    UniqueKeys (deleteRecipe s rid) := by
  exact ⟨hu.1, List.Pairwise.filter _ hu.2.1,
    List.Pairwise.filter _ hu.2.2.1, List.Pairwise.filter _ hu.2.2.2⟩

/-- C8: every store reachable from the empty store through the
operations satisfies the pairwise uniqueness invariants — no two
Ingredients rows share (name, measurement_unit), no two
IngredientInRecipe rows share (ingredient, recipe), no two Favorite rows
and no two Cart rows share (user, recipe) — and any attempt to insert a
row violating one of these keys raises the Conflict error. -/
theorem uniqueKeys_step {s s2 : Store} (h : Step s s2)
    (hu : UniqueKeys s) : UniqueKeys s2 := by
  cases h with
  | ingredientRow s s2 i nm mu h => exact uniqueKeys_insertIngredients h hu
  | tagRow s s2 tg h => exact uniqueKeys_insertTags h hu
  | favoriteRow s s2 u r h => exact uniqueKeys_insertFavorite h hu
  | cartRow s s2 u r h => exact uniqueKeys_insertCart h hu
  | createRecipe cfg s author inp => exact uniqueKeys_create cfg s author inp hu
  | updateRecipe cfg s rid author inp =>
      exact uniqueKeys_update cfg s rid author inp hu
  | deleteStep s rid => exact uniqueKeys_delete s rid hu

theorem c8_uniqueness_invariants :
    (∀ s, Reachable s → UniqueKeys s)
  ∧ (∀ (s : Store) (i : Nat) (nm mu : String),
      (∃ x ∈ s.ingredients, x.name = nm ∧ x.measurement_unit = mu) →
      insertIngredients s i nm mu = .error .conflict)
  ∧ (∀ (s : Store) (row : IngredientInRecipe),
      (∃ x ∈ s.recipeIngredients, x.ingredient = row.ingredient ∧
        x.recipe = row.recipe) →
      insertIngredientInRecipe s row = .error .conflict)
  ∧ (∀ (s : Store) (u r : Nat),
      (∃ x ∈ s.favorites, x.user = u ∧ x.recipe = r) →
      insertFavorite s u r = .error .conflict)
  ∧ (∀ (s : Store) (u r : Nat),
      (∃ x ∈ s.carts, x.user = u ∧ x.recipe = r) →
      insertCart s u r = .error .conflict) := by
  refine ⟨?_, ?_, ?_, ?_, ?_⟩
  · intro s h
    induction h with
    | refl => exact ⟨List.Pairwise.nil, List.Pairwise.nil,
        List.Pairwise.nil, List.Pairwise.nil⟩
    | tail hr hstep ih => exact uniqueKeys_step hstep ih
  · intro s i nm mu ⟨x, hx, h1, h2⟩
    unfold insertIngredients
    rw [if_pos (List.any_eq_true.2 ⟨x, hx, by simp [h1, h2]⟩)]
  · intro s row ⟨x, hx, h1, h2⟩
    unfold insertIngredientInRecipe
    rw [if_pos (List.any_eq_true.2 ⟨x, hx, by simp [h1, h2]⟩)]
  · intro s u r ⟨x, hx, h1, h2⟩
    unfold insertFavorite
    rw [if_pos (List.any_eq_true.2 ⟨x, hx, by simp [h1, h2]⟩)]
  · intro s u r ⟨x, hx, h1, h2⟩
    unfold insertCart
    rw [if_pos (List.any_eq_true.2 ⟨x, hx, by simp [h1, h2]⟩)]

/-- Witness for C8: the empty store is reachable and satisfies the
invariants, and inserting a second Favorite row for the concrete pair
(user 1, recipe 2) raises Conflict. -/
theorem c8_uniqueness_invariants_witness :
    UniqueKeys emptyStore ∧
    (∃ x ∈ ({ emptyStore with favorites := [⟨1, 2⟩] } :
        Store).favorites, x.user = 1 ∧ x.recipe = 2) ∧
    insertFavorite { emptyStore with favorites := [⟨1, 2⟩] } 1 2 =
      .error .conflict :=
  ⟨c8_uniqueness_invariants.1 emptyStore Relation.ReflTransGen.refl,
    by decide,
    c8_uniqueness_invariants.2.2.2.1
      { emptyStore with favorites := [⟨1, 2⟩] } 1 2 (by decide)⟩
